import Mathlib

/-!
Verification of the skeletal-mesh decomposition core of the repository
(src/src/render/SkeletalMesh.cpp) against its natural-language specification.

The C++ code is shallowly embedded in Lean 4:

* glm::mat4 is embedded as a 4x4 matrix over the rationals (float arithmetic
  idealised as exact arithmetic); glm::vec3 as a triple of rationals;
  glm::quat as a quadruple (w, x, y, z) of rationals.
* glm::inverse is embedded as a computable det/adjugate inverse, which agrees
  with Mathlib's nonsingular inverse.
* std::vector becomes List, unordered_map becomes an association List,
  out-of-bounds vector indexing (undefined behaviour in C++) and
  unordered_map::at on a missing key (which throws) become Option failures.
* The external primitives that the spec treats as collaborators (the 3-D
  quickhull, glm::slerp and glm::normalize, which need irrational arithmetic)
  are taken as oracle parameters; only their calling contract is used.
* Recursive C++ traversals become fuel-indexed recursion; for all well-formed
  skeletons considered here the fuel bound is never exhausted, so the embedding
  agrees with the C++ recursion, which terminates on exactly those inputs.

The declarations named in the theorems below mirror the names in the source
where Lean allows.
-/

namespace SkeletalMesh

/-! ## Basic glm types -/
/-- Embedding of glm::mat4: a 4x4 rational matrix. -/
abbrev Mat4 := Matrix (Fin 4) (Fin 4) ℚ

/-- Embedding of glm::vec3: a rational triple. -/
abbrev Vec3 := ℚ × ℚ × ℚ

/-- Embedding of glm::vec2: a rational pair. -/
abbrev Vec2 := ℚ × ℚ

/-- Embedding of glm::quat, components (w, x, y, z). -/
abbrev Quat := ℚ × ℚ × ℚ × ℚ

/-- Embedding of glm::inverse on mat4: the cofactor (det/adjugate) inverse that
glm computes, written with the rational field inverse so that it is computable.
It coincides with Mathlib's nonsingular inverse (lemma below). On a singular
matrix glm produces garbage (division by zero); here the field convention
makes the result the zero matrix, which no claim relies on. -/
def glmInverse (M : Mat4) : Mat4 := M.det⁻¹ • M.adjugate

/-- Componentwise subtraction of glm::vec3. -/
def vsub (a b : Vec3) : Vec3 := (a.1 - b.1, a.2.1 - b.2.1, a.2.2 - b.2.2)

/-- Embedding of glm::cross. -/
def vcross (a b : Vec3) : Vec3 :=
  (a.2.1 * b.2.2 - a.2.2 * b.2.1,
   a.2.2 * b.1 - a.1 * b.2.2,
   a.1 * b.2.1 - a.2.1 * b.1)

/-- Embedding of the scalar glm::mix: x * (1 - a) + y * a. -/
def glmMix (x y a : ℚ) : ℚ := x * (1 - a) + y * a

/-- Embedding of glm::mix on vec3 (componentwise). -/
def glmMix3 (x y : Vec3) (a : ℚ) : Vec3 :=
  (glmMix x.1 y.1 a, glmMix x.2.1 y.2.1 a, glmMix x.2.2 y.2.2 a)

/-! ## Keyframes and the animation sampler

Embedding of the keyframe helpers of SkeletalMesh.cpp (lines 19-108):
findKeyframeIndex, interpolatePosition, interpolateRotation, interpolateScale.
-/
/-- Embedding of the Keyframe template of SkeletalMesh.h (declared in the
missing header; its layout, a time stamp plus a value, is forced by the uses
in SkeletalMesh.cpp and by the spec's data model for AnimationChannel). -/
structure Keyframe (α : Type) where
  time : ℚ
  value : α
  deriving DecidableEq

abbrev PositionKey := Keyframe Vec3

abbrev RotationKey := Keyframe Quat

abbrev ScaleKey := Keyframe Vec3

/-- Default key used only as the junk value of List.getD at in-bounds indices
(C++ operator[] has no default; every getD below is invoked in bounds). -/
def dfltKey {α : Type} (a : α) : Keyframe α := ⟨0, a⟩

/-- Embedding of the loop body of findKeyframeIndex, starting at index i.
The C++ loop runs i over [0, keys.size()-1) and returns the first i with
time < keys[i+1].time, else keys.size() - 1. (For an empty key list the C++
unsigned comparison would walk out of bounds; all call sites guard
keys.size() >= 2 before calling, and so do the theorems below.) -/
def findKeyframeIndexFrom {α : Type} (keys : List (Keyframe α)) (time : ℚ) (i : Nat) : Nat :=
  if h : i + 1 < keys.length then
    if time < (keys.get ⟨i + 1, h⟩).time then i
    else findKeyframeIndexFrom keys time (i + 1)
  else keys.length - 1
termination_by keys.length - i

/-- Embedding of findKeyframeIndex (SkeletalMesh.cpp lines 19-27). -/
def findKeyframeIndex {α : Type} (keys : List (Keyframe α)) (time : ℚ) : Nat :=
  findKeyframeIndexFrom keys time 0

/-- Embedding of interpolatePosition (SkeletalMesh.cpp lines 30-54). -/
def interpolatePosition (keys : List PositionKey) (time : ℚ) : Vec3 :=
  if keys.length = 0 then (0, 0, 0)
  else if keys.length = 1 then (keys.getD 0 (dfltKey (0, 0, 0))).value
  else
    let index := findKeyframeIndex keys time
    let next_index := index + 1
    if keys.length ≤ next_index then (keys.getD index (dfltKey (0, 0, 0))).value
    else
      let key1 := keys.getD index (dfltKey (0, 0, 0))
      let key2 := keys.getD next_index (dfltKey (0, 0, 0))
      let delta_time := key2.time - key1.time
      let factor := (time - key1.time) / delta_time
      glmMix3 key1.value key2.value factor

/-- Embedding of interpolateRotation (SkeletalMesh.cpp lines 57-81).
glm::slerp is an external floating-point primitive (it needs trigonometric
functions), so it is passed as an oracle; the code's branching and the factor
fed to slerp are embedded exactly. -/
def interpolateRotation (slerp : Quat → Quat → ℚ → Quat)
    (keys : List RotationKey) (time : ℚ) : Quat :=
  if keys.length = 0 then (1, 0, 0, 0)
  else if keys.length = 1 then (keys.getD 0 (dfltKey (1, 0, 0, 0))).value
  else
    let index := findKeyframeIndex keys time
    let next_index := index + 1
    if keys.length ≤ next_index then (keys.getD index (dfltKey (1, 0, 0, 0))).value
    else
      let key1 := keys.getD index (dfltKey (1, 0, 0, 0))
      let key2 := keys.getD next_index (dfltKey (1, 0, 0, 0))
      let delta_time := key2.time - key1.time
      let factor := (time - key1.time) / delta_time
      slerp key1.value key2.value factor

/-- Embedding of interpolateScale (SkeletalMesh.cpp lines 84-108). -/
def interpolateScale (keys : List ScaleKey) (time : ℚ) : Vec3 :=
  if keys.length = 0 then (1, 1, 1)
  else if keys.length = 1 then (keys.getD 0 (dfltKey (1, 1, 1))).value
  else
    let index := findKeyframeIndex keys time
    let next_index := index + 1
    if keys.length ≤ next_index then (keys.getD index (dfltKey (1, 1, 1))).value
    else
      let key1 := keys.getD index (dfltKey (1, 1, 1))
      let key2 := keys.getD next_index (dfltKey (1, 1, 1))
      let delta_time := key2.time - key1.time
      let factor := (time - key1.time) / delta_time
      glmMix3 key1.value key2.value factor

/-- Ascending-by-time invariant of a keyframe track (spec, data model of
AnimationChannel: each track, if non-empty, is sorted ascending by time). -/
def TimesSorted {α : Type} (keys : List (Keyframe α)) : Prop :=
  List.Pairwise (fun a b => a.time ≤ b.time) keys

instance {α : Type} [DecidableEq α] (keys : List (Keyframe α)) :
    Decidable (TimesSorted keys) := by
  unfold TimesSorted
  infer_instance

/-! ## Skeleton data model

The struct layouts live in the missing header SkeletalMesh.h; they are forced
by the member accesses in SkeletalMesh.cpp and by the spec's data model
(section 3). Only the fields that the embedded functions touch are modelled.
-/
/-- Modelled from the spec: the Bone record (spec section 3). Field names and
the child-id list are forced by the uses in SkeletalMesh.cpp (bone.id,
bone.parent_id, bone.offset_matrix, bone.local_transform, bone.children,
bone.name). The constructor Bone(name, id, parent_id, offset, local) of the
missing header initialises the identity and matrix fields and leaves the
child list empty (children are only registered through addChild). -/
structure Bone where
  name : String
  id : Nat
  parent_id : Int
  offset_matrix : Mat4
  local_transform : Mat4
  children : List Nat

instance : Inhabited Bone := ⟨⟨"", 0, 0, 1, 1, []⟩⟩

/-- Modelled from the spec: Bone::addChild of the missing header registers the
argument bone as a child of this bone (spec section 4.1: the new bone
"registers itself as a child of the parent bone"); the child list stores bone
ids (SkeletalMesh.cpp line 243 iterates bone.children as ids). -/
def Bone.addChild (b : Bone) (child : Bone) : Bone :=
  { b with children := b.children ++ [child.id] }

/-- Embedding of the AnimationChannel struct (keyframe tracks per bone). -/
structure AnimationChannel where
  bone_id : Nat
  bone_name : String
  position_keys : List PositionKey
  rotation_keys : List RotationKey
  scale_keys : List ScaleKey
  deriving DecidableEq

instance : Inhabited AnimationChannel := ⟨⟨0, "", [], [], []⟩⟩

/-- Embedding of the Animation struct: ticks-per-second, duration in ticks and
the bone-id-to-channel map (an unordered_map in C++, an association list
here; channels are keyed by distinct bone ids, so iteration order never
affects the final state). -/
structure Animation where
  ticks_per_second : ℚ
  duration : ℚ
  channels : List (Nat × AnimationChannel)
  deriving DecidableEq

instance : Inhabited Animation := ⟨⟨25, 0, []⟩⟩

/-- Embedding of the Skeleton struct. The C++ current_animation_ is a pointer
into animations_; since the animation map is never mutated after load, the
pointer is modelled by the animation's key (the spec's design notes section 9
endorse exactly this representation). -/
structure Skeleton where
  bones_ : List Bone
  bone_matrices_ : List Mat4
  bone_map_ : List (String × Nat)
  num_bones_ : Nat
  animations_ : List (String × Animation)
  current_animation_ : Option String
  vertices_ : List Vec3
  faces_ : List (Nat × Nat × Nat)
  vertex_to_boneID_map_ : List (Nat × List Nat)

/-- Default-constructed Skeleton (all containers empty). -/
def Skeleton.empty : Skeleton :=
  { bones_ := [], bone_matrices_ := [], bone_map_ := [], num_bones_ := 0,
    animations_ := [], current_animation_ := none, vertices_ := [], faces_ := [],
    vertex_to_boneID_map_ := [] }

/-- Insert-or-assign on a string-keyed association list (unordered_map
operator[] followed by assignment). -/
def mapInsert {α : Type} (m : List (String × α)) (k : String) (v : α) : List (String × α) :=
  if m.any (fun p => p.1 = k) then m.map (fun p => if p.1 = k then (k, v) else p)
  else m ++ [(k, v)]

/-- Lookup on a string-keyed association list (unordered_map at/contains). -/
def mapFind {α : Type} (m : List (String × α)) (k : String) : Option α :=
  (m.find? (fun p => p.1 = k)).map (fun p => p.2)

/-- Embedding of Skeleton::addBone (SkeletalMesh.cpp lines 221-230). The C++
body pushes the new bone, pushes its offset matrix onto the final-matrix
sequence, registers name-to-id, refreshes num_bones_, and then — when
parent_id is not the root sentinel -1 — indexes bones_[parent_id] to register
the child. The index happens after the push, so parent_id may legally equal
the new bone's own position; an index outside the grown sequence is undefined
behaviour in C++ (std::vector operator[] unchecked) and is embedded as the
none outcome. -/
def Skeleton.addBone (s : Skeleton) (bone_name : String) (current_id : Nat)
    (parent_id : Int) (offset_matrix local_transform : Mat4) : Option Skeleton :=
  let to_add : Bone :=
    { name := bone_name, id := current_id, parent_id := parent_id,
      offset_matrix := offset_matrix, local_transform := local_transform, children := [] }
  let new_bones := s.bones_ ++ [to_add]
  let s' : Skeleton :=
    { s with
      bones_ := new_bones,
      bone_matrices_ := s.bone_matrices_ ++ [offset_matrix],
      bone_map_ := mapInsert s.bone_map_ to_add.name current_id,
      num_bones_ := new_bones.length }
  if parent_id = -1 then some s'
  else if parent_id < 0 then none
  else
    match new_bones.get? parent_id.toNat with
    | none => none
    | some parent =>
        some { s' with bones_ := new_bones.set parent_id.toNat (parent.addChild to_add) }

/-- Embedding of Skeleton::setCurrentAnimation (SkeletalMesh.cpp lines
264-270). The Bool component reports whether the "not found" error was
raised (debug::error). -/
def Skeleton.setCurrentAnimation (s : Skeleton) (animation_name : String) :
    Skeleton × Bool :=
  if (mapFind s.animations_ animation_name).isNone then (s, true)
  else ({ s with current_animation_ := some animation_name }, false)

/-- Embedding of glm::translate(mat4(1), v): identity with v in the last
column (column-major m[3] in glm is the last column here). -/
def glmTranslate (v : Vec3) : Mat4 :=
  Matrix.of fun i j =>
    if j = 3 then
      if i = 0 then v.1 else if i = 1 then v.2.1 else if i = 2 then v.2.2 else 1
    else if (i : Nat) = (j : Nat) then 1 else 0

/-- Embedding of glm::scale(mat4(1), v): the diagonal scale matrix. -/
def glmScale (v : Vec3) : Mat4 :=
  Matrix.of fun i j =>
    if (i : Nat) = (j : Nat) then
      if i = 0 then v.1 else if i = 1 then v.2.1 else if i = 2 then v.2.2 else 1
    else 0

/-- Embedding of glm::mat4_cast on a (unit) quaternion (w, x, y, z): the
standard polynomial rotation-matrix entries, exact over the rationals. -/
def glmMat4Cast (q : Quat) : Mat4 :=
  Matrix.of fun i j =>
    if i = 0 then
      if j = 0 then 1 - 2 * (q.2.2.1 * q.2.2.1 + q.2.2.2 * q.2.2.2)
      else if j = 1 then 2 * (q.2.1 * q.2.2.1 - q.1 * q.2.2.2)
      else if j = 2 then 2 * (q.2.1 * q.2.2.2 + q.1 * q.2.2.1) else 0
    else if i = 1 then
      if j = 0 then 2 * (q.2.1 * q.2.2.1 + q.1 * q.2.2.2)
      else if j = 1 then 1 - 2 * (q.2.1 * q.2.1 + q.2.2.2 * q.2.2.2)
      else if j = 2 then 2 * (q.2.2.1 * q.2.2.2 - q.1 * q.2.1) else 0
    else if i = 2 then
      if j = 0 then 2 * (q.2.1 * q.2.2.2 - q.1 * q.2.2.1)
      else if j = 1 then 2 * (q.2.2.1 * q.2.2.2 + q.1 * q.2.1)
      else if j = 2 then 1 - 2 * (q.2.1 * q.2.1 + q.2.2.1 * q.2.2.1) else 0
    else if j = 3 then 1 else 0

/-- Embedding of AnimationChannel::calculateTransform (SkeletalMesh.cpp lines
110-118): translate * rotate * scale at the sampled animation time. -/
def AnimationChannel.calculateTransform (slerp : Quat → Quat → ℚ → Quat)
    (ch : AnimationChannel) (animation_time : ℚ) : Mat4 :=
  glmTranslate (interpolatePosition ch.position_keys animation_time) *
    glmMat4Cast (interpolateRotation slerp ch.rotation_keys animation_time) *
    glmScale (interpolateScale ch.scale_keys animation_time)

/-- Truncation toward zero, as C's double-to-integer conversion inside fmod. -/
def qtrunc (x : ℚ) : ℤ := if 0 ≤ x then ⌊x⌋ else ⌈x⌉

/-- Embedding of C fmod on exact rationals: x - trunc(x / y) * y. -/
def qfmod (x y : ℚ) : ℚ := x - (qtrunc (x / y) : ℚ) * y

/-- Bone at position i of the bone sequence (bones_[i] in C++); the default is
returned only out of bounds, which well-formedness rules out. -/
def boneAt (bones : List Bone) (i : Nat) : Bone := bones.getD i default

/-- Embedding of Skeleton::traverseBoneHierarchy (SkeletalMesh.cpp lines
233-246). The first argument is recursion fuel, absent in C++: the C++
recursion terminates exactly when the child graph reached from the start bone
is acyclic, and on every well-formed skeleton (children registered by addBone
always carry an id larger than the parent's position) a fuel of one per bone
is enough, so the embedding and the C++ agree there. Reading bones_[bone_id]
out of bounds is undefined behaviour in C++; the embedding returns the
skeleton unchanged on that (never exercised) branch. -/
def Skeleton.traverseBoneHierarchy : Nat → Skeleton → Nat → Mat4 → Skeleton
  | 0, s, _, _ => s
  | fuel + 1, s, bone_id, parent_transform =>
    match s.bones_.get? bone_id with
    | none => s
    | some bone =>
      let global_transform := parent_transform * bone.local_transform
      let s' : Skeleton :=
        { s with
          bone_matrices_ :=
            s.bone_matrices_.set bone_id (global_transform * bone.offset_matrix) }
      bone.children.foldl
        (fun acc child_id =>
          Skeleton.traverseBoneHierarchy fuel acc child_id global_transform) s'

/-- Embedding of Skeleton::updateBoneMatrices (SkeletalMesh.cpp lines
248-262): resize the final-matrix sequence if its length is off (std::vector
resize pads with the given mat4(1.0f)), then traverse from the first
parent-less bone (the C++ loop breaks after the first root found). -/
def Skeleton.updateBoneMatrices (s : Skeleton) : Skeleton :=
  let s1 : Skeleton :=
    if s.bone_matrices_.length ≠ s.num_bones_ then
      { s with
        bone_matrices_ :=
          s.bone_matrices_.take s.num_bones_ ++
            List.replicate (s.num_bones_ - s.bone_matrices_.length) (1 : Mat4) }
    else s
  match (List.range s1.bones_.length).find?
      (fun i => (boneAt s1.bones_ i).parent_id = -1) with
  | some i => Skeleton.traverseBoneHierarchy s1.bones_.length s1 i 1
  | none => s1

/-- Embedding of the animation-application loop of
Skeleton::playCurrentAnimation (SkeletalMesh.cpp lines 273-279): each
channel overwrites its bone's local transform with the sampled transform.
The channel map is keyed by distinct bone ids, so the C++ unordered_map
iteration order cannot affect the result; writing bones_[bone_id] out of
bounds would be undefined behaviour in C++ and is a no-op here (channels are
built from the skeleton's own bone map, so ids are always in bounds). -/
def Skeleton.applyAnimation (slerp : Quat → Quat → ℚ → Quat) (s : Skeleton)
    (anim : Animation) (current_time : ℚ) : Skeleton :=
  let time_in_ticks := current_time * anim.ticks_per_second
  let animation_time := qfmod time_in_ticks anim.duration
  { s with
    bones_ := anim.channels.foldl
      (fun bs p =>
        bs.set p.1
          { bs.getD p.1 default with
            local_transform := p.2.calculateTransform slerp animation_time })
      s.bones_ }

/-- Embedding of Skeleton::playCurrentAnimation (SkeletalMesh.cpp lines
272-283): apply the active animation's channels, if any, then refresh the
bone matrices. The current-animation pointer is modelled by its key; a
dangling key (impossible post-load) behaves like no animation. -/
def Skeleton.playCurrentAnimation (slerp : Quat → Quat → ℚ → Quat) (s : Skeleton)
    (current_time : ℚ) : Skeleton :=
  (match s.current_animation_ with
   | none => s
   | some nm =>
     match mapFind s.animations_ nm with
     | none => s
     | some anim => s.applyAnimation slerp anim current_time).updateBoneMatrices

/-- The skeleton produced by the witness addBone call below, spelled out. -/
def oneBoneSkeleton : Skeleton :=
  { bones_ := [(⟨"root", 0, -1, 1, 1, []⟩ : Bone)],
    bone_matrices_ := [1], bone_map_ := [("root", 0)], num_bones_ := 1,
    animations_ := [], current_animation_ := none, vertices_ := [], faces_ := [],
    vertex_to_boneID_map_ := [] }

/-! ## Specification-side transform chain and skeleton well-formedness (C1) -/
/-- The claim's global transform: identity times the local transform at a root
bone, the parent's global transform times the own local transform elsewhere.
Recursion is on the position; the ill-formed case of a parent at or after its
child (excluded by well-formedness) falls back to the local transform. -/
def specGlobalTransform (bones : List Bone) (j : Nat) : Mat4 :=
  if (boneAt bones j).parent_id = -1 then (1 : Mat4) * (boneAt bones j).local_transform
  else
    if h : (boneAt bones j).parent_id.toNat < j then
      specGlobalTransform bones (boneAt bones j).parent_id.toNat *
        (boneAt bones j).local_transform
    else (boneAt bones j).local_transform
termination_by j
decreasing_by exact h

/-- Membership of position j in the subtree rooted at position i, read off the
parent chain of j (true when the chain from j upward passes through i). -/
def inSub (bones : List Bone) (i : Nat) (j : Nat) : Bool :=
  if j = i then true
  else
    if h : 0 ≤ (boneAt bones j).parent_id ∧ (boneAt bones j).parent_id.toNat < j then
      inSub bones i (boneAt bones j).parent_id.toNat
    else false
termination_by j
decreasing_by exact h.2

/-- The transform the traversal hands down: starting value P at subtree root i,
then one local transform per step down the parent chain to j. -/
def relGlobal (bones : List Bone) (P : Mat4) (i : Nat) (j : Nat) : Mat4 :=
  if j = i then P * (boneAt bones j).local_transform
  else
    if h : 0 ≤ (boneAt bones j).parent_id ∧ (boneAt bones j).parent_id.toNat < j then
      relGlobal bones P i (boneAt bones j).parent_id.toNat * (boneAt bones j).local_transform
    else (boneAt bones j).local_transform
termination_by j
decreasing_by exact h.2

/-- Well-formedness of a skeleton, exactly the invariants the spec's data
model states and that loadSkeleton-built skeletons enjoy: matrix sequence in
sync with the bone sequence, ids equal to positions, parents strictly before
children (hierarchy built top-down), child lists mirroring the parent ids,
and exactly one root. -/
def WFSkeleton (s : Skeleton) : Prop :=
  s.bone_matrices_.length = s.bones_.length ∧
  s.num_bones_ = s.bones_.length ∧
  (∀ i, i < s.bones_.length → (boneAt s.bones_ i).id = i) ∧
  (∀ i, i < s.bones_.length → (boneAt s.bones_ i).parent_id = -1 ∨
    (0 ≤ (boneAt s.bones_ i).parent_id ∧ (boneAt s.bones_ i).parent_id.toNat < i)) ∧
  (∀ i, i < s.bones_.length → (boneAt s.bones_ i).children =
    (List.range s.bones_.length).filter
      (fun j => (boneAt s.bones_ j).parent_id = (i : Int))) ∧
  ((List.range s.bones_.length).filter
    (fun i => (boneAt s.bones_ i).parent_id = -1)).length = 1

instance (s : Skeleton) : Decidable (WFSkeleton s) := by
  unfold WFSkeleton
  infer_instance

/-- The two-bone chain skeleton used as the C1 witness input. -/
def twoBoneSkeleton : Skeleton :=
  { bones_ := [(⟨"root", 0, -1, 1, 1, [1]⟩ : Bone), (⟨"child", 1, 0, 1, 1, []⟩ : Bone)],
    bone_matrices_ := [1, 1], bone_map_ := [("root", 0), ("child", 1)], num_bones_ := 2,
    animations_ := [], current_animation_ := none, vertices_ := [], faces_ := [],
    vertex_to_boneID_map_ := [] }

/-! ## Skeleton construction from a scene (C2) -/
/-- Typed view of an assimp node: name, local transformation, children
(spec section 6, the scene-import collaborator's contract). -/
structure AiNode where
  name : String
  transformation : Mat4
  children : List AiNode

/-- Typed view of the scene's bone set: scene->findBone(name) yields the
bone's offset matrix when the name is a recognised bone. -/
structure AiScene where
  scene_bones : List (String × Mat4)

/-- Embedding of aiScene::findBone reduced to what constructSkeleton reads:
the offset matrix of the named bone, if any. -/
def AiScene.findBone (scene : AiScene) (nm : String) : Option Mat4 :=
  mapFind scene.scene_bones nm

/-- Embedding of constructSkeleton (SkeletalMesh.cpp lines 143-183). The
skeleton accumulator is threaded as an Option: a failing addBone (undefined
behaviour in C++) or a bones_[parent_id] read out of bounds (likewise UB,
never exercised on real scenes because parent_id is always a previously added
bone) is none. At a recognised bone the local transform is derived from the
offset matrices — bind_pose_global = inverse(offset); the root stores
bind_pose_global itself, a child stores
inverse(inverse(parent.offset_matrix)) * bind_pose_global — and the node is
registered via addBone before recursing into the children with this bone as
parent; at an unrecognised node only the node transform is accumulated. -/
def constructSkeleton (scene : AiScene) (curr_node : AiNode) (osk : Option Skeleton)
    (parent_id : Int) (parent_global_transform : Mat4) : Option Skeleton :=
  match osk with
  | none => none
  | some skeleton =>
    let node_local := curr_node.transformation
    let node_global := parent_global_transform * node_local
    match scene.findBone curr_node.name with
    | some offset_mat =>
      let current_id := skeleton.bones_.length
      let bind_pose_global := glmInverse offset_mat
      let olocal : Option Mat4 :=
        if parent_id = -1 then some bind_pose_global
        else if parent_id < 0 then none
        else
          match skeleton.bones_.get? parent_id.toNat with
          | none => none
          | some pb => some (glmInverse (glmInverse pb.offset_matrix) * bind_pose_global)
      match olocal with
      | none => none
      | some local_transform =>
        curr_node.children.attach.foldl
          (fun acc c => constructSkeleton scene c.1 acc (Int.ofNat current_id) node_global)
          (skeleton.addBone curr_node.name current_id parent_id offset_mat local_transform)
    | none =>
      curr_node.children.attach.foldl
        (fun acc c => constructSkeleton scene c.1 acc parent_id node_global) osk
termination_by sizeOf curr_node
decreasing_by
  all_goals
    have hmem := c.2
    have := List.sizeOf_lt_of_mem hmem
    cases curr_node
    simp at this ⊢
    omega

/-! ## Bone selection + convex decomposition (C3, C4)

Embedding of SkeletalMesh::decomposeSkeleton (SkeletalMesh.cpp lines 721-822)
and the assembly helpers it uses. The external collaborators are oracle
parameters: qh maps a point set to the hull's vertex and index buffers
(quickhull's calling contract), normalize stands for glm::normalize (needs a
square root, unavailable over the rationals). GPU upload (loadSkinnedShape)
is modelled by recording the five uploaded attribute arrays. getRainbow and
getColliderMaterial are rendering glue; a part's material is modelled by its
hue index (part k of n samples hue k/n). -/
/-- Embedding of the 4-slot per-vertex bone-id array. -/
abbrev BoneIDs := Nat × Nat × Nat × Nat

/-- Embedding of the 4-slot per-vertex bone-weight array. -/
abbrev BoneWeights := ℚ × ℚ × ℚ × ℚ

/-- Embedding of DrawShape as the data handed to loadSkinnedShape plus the
derived triangle count (the C++ struct keeps GPU handles to the same data). -/
structure DrawShape where
  positions : List Vec3
  normals : List Vec3
  texcoords : List Vec2
  bone_ids : List BoneIDs
  bone_weights : List BoneWeights
  numTriangles : Nat
  deriving DecidableEq

/-- Embedding of DrawObject: a shape plus its material, reduced to the hue
index the collider material was sampled at. -/
structure DrawObject where
  shape : DrawShape
  material : Nat
  deriving DecidableEq

instance : Inhabited DrawObject := ⟨⟨⟨[], [], [], [], [], 0⟩, 0⟩⟩

/-- Embedding of DrawMesh. -/
structure DrawMesh where
  objects : List DrawObject
  deriving DecidableEq

/-- Embedding of SkeletalMesh::loadSkinnedShape (SkeletalMesh.cpp lines
824-890) at the data level: the five attribute arrays are retained and
numTriangles = positions.size() / 3. -/
def loadSkinnedShape (positions normals : List Vec3) (texcoords : List Vec2)
    (bone_ids : List BoneIDs) (bone_weights : List BoneWeights) : DrawShape :=
  { positions := positions, normals := normals, texcoords := texcoords,
    bone_ids := bone_ids, bone_weights := bone_weights,
    numTriangles := positions.length / 3 }

/-- Lookup on a Nat-keyed association list; none models the exception thrown
by unordered_map::at on a missing key. -/
def mapAtNat {α : Type} (m : List (Nat × α)) (k : Nat) : Option α :=
  (m.find? (fun p => p.1 = k)).map (fun p => p.2)

/-- The important-bone anchor set (SkeletalMesh.cpp lines 724-729): every
bone with more than one child. The C++ unordered_set iterates in an
unspecified order; the embedding fixes bone order, and the claims proved
about it are order-insensitive (part counts and per-part contents). -/
def importantBones (skeleton : Skeleton) : List Nat :=
  (skeleton.bones_.filter (fun bone => 1 < bone.children.length)).map (fun bone => bone.id)

/-- Embedding of the gathering loop (SkeletalMesh.cpp lines 732-739): for
every vertex index, vertex_to_boneID_map_.at(i) (throwing — none — when the
vertex has no entry) lists the influencing bones; the vertex is appended to
the bucket of each influencing bone that is an anchor. -/
def gatherStep (skeleton : Skeleton) (important_bones : List Nat)
    (buckets : Nat → List Vec3) (i : Nat) : Option (Nat → List Vec3) :=
  match mapAtNat skeleton.vertex_to_boneID_map_ i with
  | none => none
  | some vertex_bone_ids =>
    some (vertex_bone_ids.foldl
      (fun bk bone_id =>
        if important_bones.contains bone_id then
          fun b =>
            if b = bone_id then bk b ++ [skeleton.vertices_.getD i (0, 0, 0)]
            else bk b
        else bk)
      buckets)

def bonesToMeshes (skeleton : Skeleton) (important_bones : List Nat) :
    Option (Nat → List Vec3) :=
  (List.range skeleton.vertices_.length).foldl
    (fun acc i =>
      match acc with
      | none => none
      | some buckets => gatherStep skeleton important_bones buckets i)
    (some (fun _ => []))

/-- Consecutive index triples of the hull index buffer (the C++ loop reads
indices i, i+1, i+2 for i = 0, 3, 6, ...; the hull contract yields a triangle
list, so the buffer length is a multiple of 3 — a ragged tail, which would be
an out-of-bounds read in C++, is dropped). -/
def indexTriples : List Nat → List (Nat × Nat × Nat)
  | i0 :: i1 :: i2 :: rest => (i0, i1, i2) :: indexTriples rest
  | _ => []

/-- Embedding of the per-anchor body of the decomposition loop
(SkeletalMesh.cpp lines 746-819): hull of the gathered points, then one flat
triangle soup with per-triangle normals normalize(cross(v1-v0, v2-v0)), zero
texcoords and rigid skinning to the anchor bone (ids (bone,0,0,0), weights
(1,0,0,0)). -/
def buildHullObject (qh : List Vec3 → List Vec3 × List Nat)
    (normalize : Vec3 → Vec3) (points : List Vec3) (bone : Nat)
    (color_idx : Nat) : DrawObject :=
  let hull := qh points
  let hullVertices := hull.1
  let hullIndices := hull.2
  let tris := (indexTriples hullIndices).map (fun t =>
    (hullVertices.getD t.1 (0, 0, 0), hullVertices.getD t.2.1 (0, 0, 0),
      hullVertices.getD t.2.2 (0, 0, 0)))
  let positions := tris.foldr (fun t acc => t.1 :: t.2.1 :: t.2.2 :: acc) []
  let normals := tris.foldr (fun t acc =>
    let n := normalize (vcross (vsub t.2.1 t.1) (vsub t.2.2 t.1))
    n :: n :: n :: acc) []
  let texcoords := tris.foldr
    (fun _ acc => ((0 : ℚ), (0 : ℚ)) :: (0, 0) :: (0, 0) :: acc) ([] : List Vec2)
  let bone_ids := tris.foldr
    (fun _ acc => (bone, 0, 0, 0) :: (bone, 0, 0, 0) :: (bone, 0, 0, 0) :: acc)
    ([] : List BoneIDs)
  let bone_weights := tris.foldr
    (fun _ acc => ((1 : ℚ), (0 : ℚ), (0 : ℚ), (0 : ℚ)) :: (1, 0, 0, 0) :: (1, 0, 0, 0) :: acc)
    ([] : List BoneWeights)
  { shape := loadSkinnedShape positions normals texcoords bone_ids bone_weights,
    material := color_idx }

/-- Embedding of SkeletalMesh::decomposeSkeleton (SkeletalMesh.cpp lines
721-822): anchor set = bones with more than one child; gather buckets (none
on a missing vertex-map key, the thrown exception); then one DrawObject per
anchor — the loop body runs for every anchor, with operator[] yielding an
empty bucket for anchors that gathered nothing. -/
def decomposeSkeleton (qh : List Vec3 → List Vec3 × List Nat)
    (normalize : Vec3 → Vec3) (skeleton : Skeleton) : Option DrawMesh :=
  let important_bones := importantBones skeleton
  match bonesToMeshes skeleton important_bones with
  | none => none
  | some bone_to_meshes =>
    let objs := important_bones.enum.map
      (fun p => buildHullObject qh normalize (bone_to_meshes p.2) p.2 p.1)
    some { objects := objs }

/-- The mesh decomposeSkeleton produces once the gathering has succeeded with
buckets btm: one part per anchor, in anchor order, hue index = position. -/
def decomposedMesh (qh : List Vec3 → List Vec3 × List Nat) (normalize : Vec3 → Vec3)
    (s : Skeleton) (btm : Nat → List Vec3) : DrawMesh :=
  { objects := (importantBones s).enum.map
      (fun p => buildHullObject qh normalize (btm p.2) p.2 p.1) }

/-- The three-bone skeleton with a single branching root, no vertices: the
concrete input of the C3 witness and the C4 counterexample. -/
def branchSkeleton : Skeleton :=
  { bones_ := [(⟨"root", 0, -1, 1, 1, [1, 2]⟩ : Bone), (⟨"a", 1, 0, 1, 1, []⟩ : Bone),
      (⟨"b", 2, 0, 1, 1, []⟩ : Bone)],
    bone_matrices_ := [1, 1, 1], bone_map_ := [("root", 0), ("a", 1), ("b", 2)],
    num_bones_ := 3, animations_ := [], current_animation_ := none, vertices_ := [],
    faces_ := [], vertex_to_boneID_map_ := [] }

/-! ## Bone-weight assignment and normalization (C7)

Embedding of the per-vertex effect of the weight-population loop and the
normalization loop of SkeletalMesh::loadFbx (SkeletalMesh.cpp lines 608-614
and 618-627). Per vertex, both arrays start zeroed; each recorded
(bone id, weight) pair claims the first slot whose weight is still 0.0
(no write if all four slots are taken); afterwards the 4 weights are
normalized to sum 1, with the all-zero vector sent to weight 1 in slot 0. -/
/-- Embedding of the slot-assignment inner loop (lines 608-614): write
bone_id and weight into the first slot with weight 0.0, if any. -/
def assignWeightSlot (ids : BoneIDs) (ws : BoneWeights) (bone_id : Nat) (w : ℚ) :
    BoneIDs × BoneWeights :=
  if ws.1 = 0 then
    ((bone_id, ids.2.1, ids.2.2.1, ids.2.2.2), (w, ws.2.1, ws.2.2.1, ws.2.2.2))
  else if ws.2.1 = 0 then
    ((ids.1, bone_id, ids.2.2.1, ids.2.2.2), (ws.1, w, ws.2.2.1, ws.2.2.2))
  else if ws.2.2.1 = 0 then
    ((ids.1, ids.2.1, bone_id, ids.2.2.2), (ws.1, ws.2.1, w, ws.2.2.2))
  else if ws.2.2.2 = 0 then
    ((ids.1, ids.2.1, ids.2.2.1, bone_id), (ws.1, ws.2.1, ws.2.2.1, w))
  else (ids, ws)

/-- The per-vertex effect of the whole population loop: fold the vertex's
recorded (bone id, weight) entries, in bone order, over zeroed slot arrays. -/
def assignRecorded (entries : List (Nat × ℚ)) : BoneIDs × BoneWeights :=
  entries.foldl (fun p e => assignWeightSlot p.1 p.2 e.1 e.2) ((0, 0, 0, 0), (0, 0, 0, 0))

/-- Sum of the four weight slots (the normalization loop's sum). -/
def sumW (ws : BoneWeights) : ℚ := ws.1 + ws.2.1 + ws.2.2.1 + ws.2.2.2

/-- Uniform rescaling of the four slots. -/
def scaleW (c : ℚ) (ws : BoneWeights) : BoneWeights :=
  (c * ws.1, c * ws.2.1, c * ws.2.2.1, c * ws.2.2.2)

/-- Embedding of the normalization loop (lines 618-627): the all-zero weight
vector gets weight 1.0 in slot 0; otherwise, when the sum is not already 1,
every slot is divided by the sum. -/
def normalizeWeights (b_w : BoneWeights) : BoneWeights :=
  if b_w = ((0 : ℚ), 0, 0, 0) then (1, b_w.2.1, b_w.2.2.1, b_w.2.2.2)
  else
    let sum := sumW b_w
    if sum ≠ 1 then (b_w.1 / sum, b_w.2.1 / sum, b_w.2.2.1 / sum, b_w.2.2.2 / sum)
    else b_w

/-! ## Theorems -/

theorem glmInverse_eq_inv (M : Mat4) : glmInverse M = M⁻¹ := by
  rw [glmInverse, Matrix.inv_def, Ring.inverse_eq_inv']

theorem glmInverse_mul (M : Mat4) (h : IsUnit M.det) : glmInverse M * M = 1 := by
  rw [glmInverse_eq_inv]
  exact Matrix.nonsing_inv_mul M h

theorem TimesSorted.getD_mono {α : Type} {keys : List (Keyframe α)} (hs : TimesSorted keys)
    {d : Keyframe α} {i j : Nat} (hij : i ≤ j) (hj : j < keys.length) :
    (keys.getD i d).time ≤ (keys.getD j d).time := by
  rcases Nat.eq_or_lt_of_le hij with rfl | hlt
  · exact le_refl _
  · have hi : i < keys.length := lt_trans hlt hj
    have := List.pairwise_iff_get.mp hs ⟨i, hi⟩ ⟨j, hj⟩ hlt
    simpa [List.getD_eq_getElem, hi, hj, List.get_eq_getElem] using this

theorem findKeyframeIndexFrom_ret {α : Type} (keys : List (Keyframe α)) (t : ℚ)
    (d : Keyframe α) (i : Nat) (hi : i + 1 < keys.length)
    (ht : t < (keys.getD (i + 1) d).time) :
    ∀ m j, i - j = m → j ≤ i →
      (∀ k, j ≤ k → k < i → (keys.getD (k + 1) d).time ≤ t) →
      findKeyframeIndexFrom keys t j = i := by
  intro m
  induction m with
  | zero =>
    intro j hm hji _
    have hji' : j = i := by omega
    subst hji'
    unfold findKeyframeIndexFrom
    rw [dif_pos hi]
    rw [if_pos]
    rw [List.get_eq_getElem, ← List.getD_eq_getElem keys d hi]
    exact ht
  | succ m ih =>
    intro j hm hji hbelow
    have hjlt : j < i := by omega
    have hj1 : j + 1 < keys.length := by omega
    unfold findKeyframeIndexFrom
    rw [dif_pos hj1]
    rw [if_neg]
    · exact ih (j + 1) (by omega) (by omega) (fun k hk1 hk2 => hbelow k (by omega) hk2)
    · rw [List.get_eq_getElem, ← List.getD_eq_getElem keys d hj1]
      exact not_lt.mpr (hbelow j le_rfl hjlt)

theorem findKeyframeIndexFrom_past {α : Type} (keys : List (Keyframe α)) (t : ℚ)
    (d : Keyframe α)
    (hbig : ∀ k, k + 1 < keys.length → (keys.getD (k + 1) d).time ≤ t) :
    ∀ m j, keys.length - j = m → findKeyframeIndexFrom keys t j = keys.length - 1 := by
  intro m
  induction m with
  | zero =>
    intro j hm
    unfold findKeyframeIndexFrom
    rw [dif_neg (by omega)]
  | succ m ih =>
    intro j hm
    unfold findKeyframeIndexFrom
    by_cases hj1 : j + 1 < keys.length
    · rw [dif_pos hj1]
      rw [if_neg]
      · exact ih (j + 1) (by omega)
      · rw [List.get_eq_getElem, ← List.getD_eq_getElem keys d hj1]
        exact not_lt.mpr (hbig j hj1)
    · rw [dif_neg hj1]

/-- With the track sorted and t in the half-open span [key i, key (i+1)),
findKeyframeIndex resolves to i. -/
theorem findKeyframeIndex_interior {α : Type} {keys : List (Keyframe α)} {t : ℚ}
    (d : Keyframe α) {i : Nat} (hs : TimesSorted keys) (hi : i + 1 < keys.length)
    (h1 : (keys.getD i d).time ≤ t) (h2 : t < (keys.getD (i + 1) d).time) :
    findKeyframeIndex keys t = i := by
  refine findKeyframeIndexFrom_ret keys t d i hi h2 i 0 (by omega) (Nat.zero_le i) ?_
  intro k _ hk
  calc (keys.getD (k + 1) d).time ≤ (keys.getD i d).time :=
        hs.getD_mono (by omega) (by omega)
    _ ≤ t := h1

/-- With the track sorted and t at or past the last key's time,
findKeyframeIndex resolves to the last index. -/
theorem findKeyframeIndex_past {α : Type} {keys : List (Keyframe α)} {t : ℚ}
    (d : Keyframe α) (hs : TimesSorted keys) (hlen : 1 ≤ keys.length)
    (hlast : (keys.getD (keys.length - 1) d).time ≤ t) :
    findKeyframeIndex keys t = keys.length - 1 := by
  refine findKeyframeIndexFrom_past keys t d ?_ keys.length 0 (by omega)
  intro k hk
  calc (keys.getD (k + 1) d).time ≤ (keys.getD (keys.length - 1) d).time :=
        hs.getD_mono (by omega) (by omega)
    _ ≤ t := hlast

theorem interpolatePosition_interior {keys : List PositionKey} {t : ℚ} {i : Nat}
    (hs : TimesSorted keys) (hi : i + 1 < keys.length)
    (h1 : (keys.getD i (dfltKey (0, 0, 0))).time ≤ t)
    (h2 : t < (keys.getD (i + 1) (dfltKey (0, 0, 0))).time) :
    interpolatePosition keys t =
      glmMix3 (keys.getD i (dfltKey (0, 0, 0))).value
        (keys.getD (i + 1) (dfltKey (0, 0, 0))).value
        ((t - (keys.getD i (dfltKey (0, 0, 0))).time) /
          ((keys.getD (i + 1) (dfltKey (0, 0, 0))).time -
            (keys.getD i (dfltKey (0, 0, 0))).time)) := by
  have hidx : findKeyframeIndex keys t = i := findKeyframeIndex_interior _ hs hi h1 h2
  unfold interpolatePosition
  rw [if_neg (by omega), if_neg (by omega)]
  simp only [hidx]
  rw [if_neg (by omega)]

theorem interpolatePosition_clamp {keys : List PositionKey} {t : ℚ}
    (hs : TimesSorted keys) (h2 : 2 ≤ keys.length)
    (hlast : (keys.getD (keys.length - 1) (dfltKey (0, 0, 0))).time ≤ t) :
    interpolatePosition keys t = (keys.getD (keys.length - 1) (dfltKey (0, 0, 0))).value := by
  have hidx : findKeyframeIndex keys t = keys.length - 1 :=
    findKeyframeIndex_past _ hs (by omega) hlast
  unfold interpolatePosition
  rw [if_neg (by omega), if_neg (by omega)]
  simp only [hidx]
  rw [if_pos (by omega)]

theorem interpolateRotation_interior {slerp : Quat → Quat → ℚ → Quat}
    {keys : List RotationKey} {t : ℚ} {i : Nat}
    (hs : TimesSorted keys) (hi : i + 1 < keys.length)
    (h1 : (keys.getD i (dfltKey (1, 0, 0, 0))).time ≤ t)
    (h2 : t < (keys.getD (i + 1) (dfltKey (1, 0, 0, 0))).time) :
    interpolateRotation slerp keys t =
      slerp (keys.getD i (dfltKey (1, 0, 0, 0))).value
        (keys.getD (i + 1) (dfltKey (1, 0, 0, 0))).value
        ((t - (keys.getD i (dfltKey (1, 0, 0, 0))).time) /
          ((keys.getD (i + 1) (dfltKey (1, 0, 0, 0))).time -
            (keys.getD i (dfltKey (1, 0, 0, 0))).time)) := by
  have hidx : findKeyframeIndex keys t = i := findKeyframeIndex_interior _ hs hi h1 h2
  unfold interpolateRotation
  rw [if_neg (by omega), if_neg (by omega)]
  simp only [hidx]
  rw [if_neg (by omega)]

theorem interpolateRotation_clamp {slerp : Quat → Quat → ℚ → Quat}
    {keys : List RotationKey} {t : ℚ}
    (hs : TimesSorted keys) (h2 : 2 ≤ keys.length)
    (hlast : (keys.getD (keys.length - 1) (dfltKey (1, 0, 0, 0))).time ≤ t) :
    interpolateRotation slerp keys t =
      (keys.getD (keys.length - 1) (dfltKey (1, 0, 0, 0))).value := by
  have hidx : findKeyframeIndex keys t = keys.length - 1 :=
    findKeyframeIndex_past _ hs (by omega) hlast
  unfold interpolateRotation
  rw [if_neg (by omega), if_neg (by omega)]
  simp only [hidx]
  rw [if_pos (by omega)]

theorem interpolateScale_interior {keys : List ScaleKey} {t : ℚ} {i : Nat}
    (hs : TimesSorted keys) (hi : i + 1 < keys.length)
    (h1 : (keys.getD i (dfltKey (1, 1, 1))).time ≤ t)
    (h2 : t < (keys.getD (i + 1) (dfltKey (1, 1, 1))).time) :
    interpolateScale keys t =
      glmMix3 (keys.getD i (dfltKey (1, 1, 1))).value
        (keys.getD (i + 1) (dfltKey (1, 1, 1))).value
        ((t - (keys.getD i (dfltKey (1, 1, 1))).time) /
          ((keys.getD (i + 1) (dfltKey (1, 1, 1))).time -
            (keys.getD i (dfltKey (1, 1, 1))).time)) := by
  have hidx : findKeyframeIndex keys t = i := findKeyframeIndex_interior _ hs hi h1 h2
  unfold interpolateScale
  rw [if_neg (by omega), if_neg (by omega)]
  simp only [hidx]
  rw [if_neg (by omega)]

theorem interpolateScale_clamp {keys : List ScaleKey} {t : ℚ}
    (hs : TimesSorted keys) (h2 : 2 ≤ keys.length)
    (hlast : (keys.getD (keys.length - 1) (dfltKey (1, 1, 1))).time ≤ t) :
    interpolateScale keys t = (keys.getD (keys.length - 1) (dfltKey (1, 1, 1))).value := by
  have hidx : findKeyframeIndex keys t = keys.length - 1 :=
    findKeyframeIndex_past _ hs (by omega) hlast
  unfold interpolateScale
  rw [if_neg (by omega), if_neg (by omega)]
  simp only [hidx]
  rw [if_pos (by omega)]

/-- C5: for every keyframe track with at least two keys, sampling at a time t
with key i time <= t < key (i+1) time returns the interpolation of keys i and
i+1 at factor (t - key i time) / (key (i+1) time - key i time) — linear
(glm::mix) for position and scale, spherical-linear (glm::slerp) for rotation
— and sampling at or past the last key's time returns the last key's value
unchanged; concretely, a position track with keys at times 0 and 10 and values
(0,0,0) and (10,0,0) yields (5,0,0) at t = 5 and (10,0,0) at t = 15. -/
theorem C5_keyframe_sampling
    (pkeys : List PositionKey) (rkeys : List RotationKey) (skeys : List ScaleKey)
    (slerp : Quat → Quat → ℚ → Quat) (t : ℚ) (i : Nat)
    (hsp : TimesSorted pkeys) (hsr : TimesSorted rkeys) (hss : TimesSorted skeys) :
    (i + 1 < pkeys.length → (pkeys.getD i (dfltKey (0, 0, 0))).time ≤ t →
      t < (pkeys.getD (i + 1) (dfltKey (0, 0, 0))).time →
      interpolatePosition pkeys t =
        glmMix3 (pkeys.getD i (dfltKey (0, 0, 0))).value
          (pkeys.getD (i + 1) (dfltKey (0, 0, 0))).value
          ((t - (pkeys.getD i (dfltKey (0, 0, 0))).time) /
            ((pkeys.getD (i + 1) (dfltKey (0, 0, 0))).time -
              (pkeys.getD i (dfltKey (0, 0, 0))).time))) ∧
    (2 ≤ pkeys.length → (pkeys.getD (pkeys.length - 1) (dfltKey (0, 0, 0))).time ≤ t →
      interpolatePosition pkeys t = (pkeys.getD (pkeys.length - 1) (dfltKey (0, 0, 0))).value) ∧
    (i + 1 < rkeys.length → (rkeys.getD i (dfltKey (1, 0, 0, 0))).time ≤ t →
      t < (rkeys.getD (i + 1) (dfltKey (1, 0, 0, 0))).time →
      interpolateRotation slerp rkeys t =
        slerp (rkeys.getD i (dfltKey (1, 0, 0, 0))).value
          (rkeys.getD (i + 1) (dfltKey (1, 0, 0, 0))).value
          ((t - (rkeys.getD i (dfltKey (1, 0, 0, 0))).time) /
            ((rkeys.getD (i + 1) (dfltKey (1, 0, 0, 0))).time -
              (rkeys.getD i (dfltKey (1, 0, 0, 0))).time))) ∧
    (2 ≤ rkeys.length → (rkeys.getD (rkeys.length - 1) (dfltKey (1, 0, 0, 0))).time ≤ t →
      interpolateRotation slerp rkeys t =
        (rkeys.getD (rkeys.length - 1) (dfltKey (1, 0, 0, 0))).value) ∧
    (i + 1 < skeys.length → (skeys.getD i (dfltKey (1, 1, 1))).time ≤ t →
      t < (skeys.getD (i + 1) (dfltKey (1, 1, 1))).time →
      interpolateScale skeys t =
        glmMix3 (skeys.getD i (dfltKey (1, 1, 1))).value
          (skeys.getD (i + 1) (dfltKey (1, 1, 1))).value
          ((t - (skeys.getD i (dfltKey (1, 1, 1))).time) /
            ((skeys.getD (i + 1) (dfltKey (1, 1, 1))).time -
              (skeys.getD i (dfltKey (1, 1, 1))).time))) ∧
    (2 ≤ skeys.length → (skeys.getD (skeys.length - 1) (dfltKey (1, 1, 1))).time ≤ t →
      interpolateScale skeys t = (skeys.getD (skeys.length - 1) (dfltKey (1, 1, 1))).value) ∧
    interpolatePosition [⟨0, (0, 0, 0)⟩, ⟨10, (10, 0, 0)⟩] 5 = (5, 0, 0) ∧
    interpolatePosition [⟨0, (0, 0, 0)⟩, ⟨10, (10, 0, 0)⟩] 15 = (10, 0, 0) := by
  have hex1 : interpolatePosition [⟨0, (0, 0, 0)⟩, ⟨10, (10, 0, 0)⟩] 5 = (5, 0, 0) := by
    rw [interpolatePosition_interior (i := 0) (by decide) (by simp) (by simp)
      (by simp; norm_num)]
    simp [glmMix3, glmMix]
    norm_num
  have hex2 : interpolatePosition [⟨0, (0, 0, 0)⟩, ⟨10, (10, 0, 0)⟩] 15 = (10, 0, 0) := by
    rw [interpolatePosition_clamp (by decide) (by simp) (by simp; norm_num)]
    simp
  exact ⟨fun h1 h2 h3 => interpolatePosition_interior hsp h1 h2 h3,
    fun h1 h2 => interpolatePosition_clamp hsp h1 h2,
    fun h1 h2 h3 => interpolateRotation_interior hsr h1 h2 h3,
    fun h1 h2 => interpolateRotation_clamp hsr h1 h2,
    fun h1 h2 h3 => interpolateScale_interior hss h1 h2 h3,
    fun h1 h2 => interpolateScale_clamp hss h1 h2,
    hex1, hex2⟩

/-- Witness for C5 at a concrete two-key position track. -/
theorem C5_keyframe_sampling_witness :
    TimesSorted [(⟨0, (0, 0, 0)⟩ : PositionKey), ⟨10, (10, 0, 0)⟩] ∧
    interpolatePosition [⟨0, (0, 0, 0)⟩, ⟨10, (10, 0, 0)⟩] 5 = (5, 0, 0) ∧
    interpolatePosition [⟨0, (0, 0, 0)⟩, ⟨10, (10, 0, 0)⟩] 15 = (10, 0, 0) := by
  have h := C5_keyframe_sampling [⟨0, (0, 0, 0)⟩, ⟨10, (10, 0, 0)⟩] [] []
    (fun a _ _ => a) 5 0 (by decide) (by decide) (by decide)
  exact ⟨by decide, h.2.2.2.2.2.2⟩

/-- C6 counterexample: on the two-key position track with keys at times 0 and
10 and values (0,0,0) and (10,0,0), sampling at t = -1 (strictly before the
first key) resolves the index to 0 but returns the linear extrapolation
(-1,0,0), not the first key's value (0,0,0): the claim that the value is
treated as key 0's value is false on this input. -/
theorem C6_counterexample :
    findKeyframeIndex [(⟨0, (0, 0, 0)⟩ : PositionKey), ⟨10, (10, 0, 0)⟩] (-1) = 0 ∧
    interpolatePosition [⟨0, (0, 0, 0)⟩, ⟨10, (10, 0, 0)⟩] (-1) = (-1, 0, 0) ∧
    ¬ interpolatePosition [⟨0, (0, 0, 0)⟩, ⟨10, (10, 0, 0)⟩] (-1) = (0, 0, 0) := by
  have hidx : findKeyframeIndex [(⟨0, (0, 0, 0)⟩ : PositionKey), ⟨10, (10, 0, 0)⟩] (-1) = 0 := by
    unfold findKeyframeIndex findKeyframeIndexFrom
    norm_num
  have hval : interpolatePosition [⟨0, (0, 0, 0)⟩, ⟨10, (10, 0, 0)⟩] (-1) = (-1, 0, 0) := by
    unfold interpolatePosition
    rw [if_neg (by simp), if_neg (by simp)]
    simp only [hidx]
    rw [if_neg (by simp)]
    simp [glmMix3, glmMix]
    norm_num
  refine ⟨hidx, hval, ?_⟩
  rw [hval]
  intro h
  have h1 : (-1 : ℚ) = 0 := congrArg Prod.fst h
  norm_num at h1

/-- C6 amended: for a sorted track with at least two keys, sampling strictly
before the first key's time resolves the keyframe index to 0, but the returned
value is the linear interpolation of keys 0 and 1 at the (negative) factor
(t - key 0 time) / (key 1 time - key 0 time) — an extrapolation below key 0,
not key 0's value. -/
theorem C6_before_first_extrapolates (keys : List PositionKey) (t : ℚ)
    (hs : TimesSorted keys) (h2 : 2 ≤ keys.length)
    (hbefore : t < (keys.getD 0 (dfltKey (0, 0, 0))).time) :
    findKeyframeIndex keys t = 0 ∧
    interpolatePosition keys t =
      glmMix3 (keys.getD 0 (dfltKey (0, 0, 0))).value
        (keys.getD 1 (dfltKey (0, 0, 0))).value
        ((t - (keys.getD 0 (dfltKey (0, 0, 0))).time) /
          ((keys.getD 1 (dfltKey (0, 0, 0))).time - (keys.getD 0 (dfltKey (0, 0, 0))).time)) := by
  have h01 : t < (keys.getD 1 (dfltKey (0, 0, 0))).time :=
    lt_of_lt_of_le hbefore (hs.getD_mono (by omega) (by omega))
  have hidx : findKeyframeIndex keys t = 0 := by
    unfold findKeyframeIndex findKeyframeIndexFrom
    rw [dif_pos (by omega)]
    rw [if_pos]
    rw [List.get_eq_getElem, ← List.getD_eq_getElem keys (dfltKey (0, 0, 0)) (by omega)]
    exact h01
  refine ⟨hidx, ?_⟩
  unfold interpolatePosition
  rw [if_neg (by omega), if_neg (by omega)]
  simp only [hidx]
  rw [if_neg (by omega)]

/-- Witness for the amended C6 at the concrete two-key track and t = -1. -/
theorem C6_before_first_extrapolates_witness :
    TimesSorted [(⟨0, (0, 0, 0)⟩ : PositionKey), ⟨10, (10, 0, 0)⟩] ∧
    (findKeyframeIndex [(⟨0, (0, 0, 0)⟩ : PositionKey), ⟨10, (10, 0, 0)⟩] (-1) = 0 ∧
      interpolatePosition [⟨0, (0, 0, 0)⟩, ⟨10, (10, 0, 0)⟩] (-1) =
        glmMix3 (0, 0, 0) (10, 0, 0) ((-1 - 0) / (10 - 0))) := by
  have h := C6_before_first_extrapolates [⟨0, (0, 0, 0)⟩, ⟨10, (10, 0, 0)⟩] (-1)
    (by decide) (by decide) (by norm_num)
  refine ⟨by decide, h.1, ?_⟩
  simpa using h.2

theorem mapFind_mapInsert_self {α : Type} (m : List (String × α)) (k : String) (v : α) :
    mapFind (mapInsert m k v) k = some v := by
  unfold mapInsert mapFind
  by_cases hany : m.any (fun p => p.1 = k)
  · rw [if_pos hany]
    induction m with
    | nil => simp at hany
    | cons a m ih =>
      by_cases ha : a.1 = k
      · rw [List.map_cons, if_pos ha, List.find?_cons_of_pos _ (by simp)]
        rfl
      · have hany' : m.any (fun p => p.1 = k) := by
          simp only [List.any_cons] at hany
          rcases Bool.or_eq_true_iff.mp hany with h | h
          · exact absurd (by simpa using h) ha
          · exact h
        rw [List.map_cons, if_neg ha, List.find?_cons_of_neg _ (by simpa using ha)]
        exact ih hany'
  · rw [if_neg hany]
    induction m with
    | nil => simp [List.find?]
    | cons a m ih =>
      have ha : ¬ a.1 = k := by
        intro h
        exact hany (by simp [List.any_cons, h])
      have hany' : ¬ m.any (fun p => p.1 = k) := by
        intro h
        exact hany (by simp [List.any_cons, h])
      rw [List.cons_append, List.find?_cons_of_neg _ (by simpa using ha)]
      exact ih hany'

/-- C8 counterexample: on an empty skeleton, addBone with parent_id = 0 — a
parent id that does not reference any bone already present — does not fail:
because the new bone is pushed before the parent lookup, the id resolves to
the new bone itself, which is registered as its own child. -/
theorem C8_counterexample :
    (Skeleton.empty.addBone "a" 0 0 1 1).map
        (fun s => (s.bones_.getD 0 default).children) = some [0] ∧
    ¬ Skeleton.empty.addBone "a" 0 0 1 1 = none := by
  have h1 : (Skeleton.empty.addBone "a" 0 0 1 1).map
      (fun s => (s.bones_.getD 0 default).children) = some [0] := rfl
  refine ⟨h1, ?_⟩
  intro h
  rw [h] at h1
  exact Option.noConfusion h1

/-- C8 amended: addBone fails exactly when parent_id is neither the root
sentinel -1 nor an index into the bone sequence as it stands after the new
bone is appended — so parent_id equal to the new bone's own position
succeeds, registering the bone as its own child, rather than being rejected.
On success it appends the bone, registers name-to-id, appends one final-matrix
slot (holding the offset matrix), and, when parent_id is not -1, registers the
new bone's id as a child of bones_[parent_id]. -/
theorem C8_addBone_contract (s : Skeleton) (bone_name : String) (current_id : Nat)
    (parent_id : Int) (off loc : Mat4) :
    (s.addBone bone_name current_id parent_id off loc = none ↔
      parent_id ≠ -1 ∧ (parent_id < 0 ∨ s.bones_.length + 1 ≤ parent_id.toNat)) ∧
    (∀ s', s.addBone bone_name current_id parent_id off loc = some s' →
      s'.bone_matrices_ = s.bone_matrices_ ++ [off] ∧
      s'.num_bones_ = s.bones_.length + 1 ∧
      s'.bones_.length = s.bones_.length + 1 ∧
      mapFind s'.bone_map_ bone_name = some current_id ∧
      (parent_id = -1 →
        s'.bones_ = s.bones_ ++
          [{ name := bone_name, id := current_id, parent_id := parent_id,
             offset_matrix := off, local_transform := loc, children := [] }]) ∧
      (parent_id ≠ -1 → 0 ≤ parent_id →
        (s'.bones_.getD parent_id.toNat default).children =
          (if parent_id.toNat = s.bones_.length then ([] : List Nat)
           else (s.bones_.getD parent_id.toNat default).children) ++ [current_id])) := by
  unfold Skeleton.addBone
  by_cases hroot : parent_id = -1
  · rw [if_pos hroot]
    constructor
    · constructor
      · intro h
        exact Option.noConfusion h
      · rintro ⟨h, _⟩
        exact absurd hroot h
    · intro s' hs'
      have hs'' := Option.some.inj hs'
      subst hs''
      refine ⟨rfl, by simp, by simp, mapFind_mapInsert_self _ _ _, fun _ => rfl,
        fun h _ => absurd hroot h⟩
  · rw [if_neg hroot]
    by_cases hneg : parent_id < 0
    · rw [if_pos hneg]
      constructor
      · constructor
        · intro _
          exact ⟨hroot, Or.inl hneg⟩
        · intro _
          rfl
      · intro s' hs'
        exact Option.noConfusion hs'
    · rw [if_neg hneg]
      by_cases hin : parent_id.toNat < s.bones_.length + 1
      · have hget : ∀ b : Bone, (s.bones_ ++ [b]).get? parent_id.toNat =
            some ((s.bones_ ++ [b]).getD parent_id.toNat default) := by
          intro b
          rw [List.getD_eq_getElem _ _ (by simp; omega)]
          exact List.get?_eq_get (by simp; omega)
        rw [hget]
        constructor
        · constructor
          · intro h
            exact Option.noConfusion h
          · rintro ⟨_, h | h⟩
            · exact absurd h hneg
            · omega
        · intro s' hs'
          have hs'' := Option.some.inj hs'
          subst hs''
          refine ⟨rfl, by simp, by simp, mapFind_mapInsert_self _ _ _,
            fun h => absurd h hroot, fun _ _ => ?_⟩
          rw [List.getD_eq_getElem _ _ (by simp; omega),
            List.getElem_set_self (by simp; omega)]
          by_cases hself : parent_id.toNat = s.bones_.length
          · rw [if_pos hself]
            unfold Bone.addChild
            simp [hself]
          · rw [if_neg hself]
            unfold Bone.addChild
            have hlt : parent_id.toNat < s.bones_.length := by omega
            simp only
            congr 1
            rw [List.getD_eq_getElem _ _ (by simp; omega),
              List.getD_eq_getElem _ _ hlt]
            exact congrArg Bone.children (List.getElem_append_left hlt)
      · have hget : ∀ b : Bone, (s.bones_ ++ [b]).get? parent_id.toNat = none := by
          intro b
          rw [List.get?_eq_none]
          simp
          omega
        rw [hget]
        constructor
        · constructor
          · intro _
            exact ⟨hroot, Or.inr (by omega)⟩
          · intro _
            rfl
        · intro s' hs'
          exact Option.noConfusion hs'

/-- Witness for the amended C8: with two out-of-range parent ids the call
fails, as the contract states. -/
theorem C8_addBone_contract_witness :
    Skeleton.empty.addBone "b" 0 2 1 1 = none ∧
    Skeleton.empty.addBone "c" 0 (-2) 1 1 = none :=
  ⟨(C8_addBone_contract Skeleton.empty "b" 0 2 1 1).1.mpr
      ⟨by decide, Or.inr (by decide)⟩,
   (C8_addBone_contract Skeleton.empty "c" 0 (-2) 1 1).1.mpr
      ⟨by decide, Or.inl (by decide)⟩⟩

/-- C9: for an animation name absent from the skeleton's animation map,
setCurrentAnimation reports the not-found error and is a no-op on the whole
skeleton state; for a present name it activates the animation (no error), and
subsequent playback applies exactly that animation's channels before
refreshing the bone matrices. -/
theorem C9_setCurrentAnimation (s : Skeleton) (nm : String) :
    (mapFind s.animations_ nm = none → s.setCurrentAnimation nm = (s, true)) ∧
    (∀ anim, mapFind s.animations_ nm = some anim →
      s.setCurrentAnimation nm = ({ s with current_animation_ := some nm }, false) ∧
      ∀ slerp t,
        ((s.setCurrentAnimation nm).1.playCurrentAnimation slerp t) =
          (Skeleton.applyAnimation slerp { s with current_animation_ := some nm }
              anim t).updateBoneMatrices) := by
  constructor
  · intro habs
    unfold Skeleton.setCurrentAnimation
    rw [if_pos (by rw [habs]; rfl)]
  · intro anim hpres
    have hset : s.setCurrentAnimation nm =
        ({ s with current_animation_ := some nm }, false) := by
      unfold Skeleton.setCurrentAnimation
      rw [if_neg (by rw [hpres]; exact Bool.noConfusion)]
    refine ⟨hset, fun slerp t => ?_⟩
    rw [hset]
    unfold Skeleton.playCurrentAnimation
    dsimp only
    rw [hpres]

/-- Witness for C9 on a one-animation skeleton: the absent name "run" is
reported and leaves the state untouched; the present name "walk" is
activated without error. -/
theorem C9_setCurrentAnimation_witness :
    mapFind ({ Skeleton.empty with
        animations_ := [("walk", (default : Animation))] } : Skeleton).animations_
        "run" = none ∧
    ({ Skeleton.empty with
        animations_ := [("walk", (default : Animation))] } : Skeleton).setCurrentAnimation
        "run" =
      ({ Skeleton.empty with animations_ := [("walk", (default : Animation))] }, true) ∧
    ({ Skeleton.empty with
        animations_ := [("walk", (default : Animation))] } : Skeleton).setCurrentAnimation
        "walk" =
      ({ Skeleton.empty with
          animations_ := [("walk", (default : Animation))],
          current_animation_ := some "walk" }, false) := by
  refine ⟨rfl, ?_, ?_⟩
  · exact (C9_setCurrentAnimation _ "run").1 (by decide)
  · exact ((C9_setCurrentAnimation _ "walk").2 default (by decide)).1

/-- C10: every addBone call initialises the newly appended final-matrix entry
to the bone's offset matrix, and so — before the first updateBoneMatrices or
playCurrentAnimation call — every exposed final bone matrix equals the
corresponding bone's offset matrix (the invariant holds for the empty
skeleton and is preserved by each addBone). -/
theorem C10_addBone_matrix_is_offset (s : Skeleton) (bone_name : String)
    (current_id : Nat) (parent_id : Int) (off loc : Mat4)
    (hinv : s.bone_matrices_.length = s.bones_.length ∧
      ∀ i, i < s.bones_.length →
        s.bone_matrices_.getD i 1 = (s.bones_.getD i default).offset_matrix) :
    ∀ s', s.addBone bone_name current_id parent_id off loc = some s' →
      s'.bone_matrices_ = s.bone_matrices_ ++ [off] ∧
      s'.bone_matrices_.length = s'.bones_.length ∧
      ∀ i, i < s'.bones_.length →
        s'.bone_matrices_.getD i 1 = (s'.bones_.getD i default).offset_matrix := by
  intro s' hs'
  unfold Skeleton.addBone at hs'
  set to_add : Bone :=
    { name := bone_name, id := current_id, parent_id := parent_id,
      offset_matrix := off, local_transform := loc, children := [] } with hta
  have hoffsets : ∀ bs : List Bone,
      (∀ i, i < bs.length →
        (bs.getD i default).offset_matrix =
          ((s.bones_ ++ [to_add]).getD i default).offset_matrix) →
      bs.length = s.bones_.length + 1 →
      (s.bone_matrices_ ++ [off]).length = bs.length ∧
      ∀ i, i < bs.length →
        (s.bone_matrices_ ++ [off]).getD i 1 = (bs.getD i default).offset_matrix := by
    intro bs hbs hlen
    constructor
    · simp [hlen, hinv.1]
    · intro i hi
      rw [hbs i hi]
      by_cases hilt : i < s.bones_.length
      · rw [List.getD_eq_getElem _ _ (by simp; omega),
          List.getD_eq_getElem (l := s.bones_ ++ [to_add]) _ (by simp; omega)]
        rw [List.getElem_append_left (by omega), List.getElem_append_left hilt]
        rw [← List.getD_eq_getElem _ 1 (by omega),
          ← List.getD_eq_getElem _ default hilt]
        exact hinv.2 i hilt
      · have hieq : i = s.bones_.length := by omega
        subst hieq
        rw [List.getD_eq_getElem _ _ (by simp [hinv.1]),
          List.getD_eq_getElem (l := s.bones_ ++ [to_add]) _ (by simp)]
        rw [List.getElem_append_right (by omega), List.getElem_append_right (by omega)]
        simp [hinv.1]
  by_cases hroot : parent_id = -1
  · rw [if_pos hroot] at hs'
    have hs'' := Option.some.inj hs'
    subst hs''
    have h := hoffsets (s.bones_ ++ [to_add]) (fun i _ => rfl) (by simp)
    exact ⟨rfl, h.1, h.2⟩
  · rw [if_neg hroot] at hs'
    by_cases hneg : parent_id < 0
    · rw [if_pos hneg] at hs'
      exact Option.noConfusion hs'
    · rw [if_neg hneg] at hs'
      rcases hget : (s.bones_ ++ [to_add]).get? parent_id.toNat with _ | parent
      · rw [hget] at hs'
        exact Option.noConfusion hs'
      · rw [hget] at hs'
        have hs'' := Option.some.inj hs'
        subst hs''
        have hin : parent_id.toNat < s.bones_.length + 1 := by
          have := List.get?_eq_some.mp hget
          rcases this with ⟨hlt, _⟩
          simpa using hlt
        have hpar : parent = (s.bones_ ++ [to_add]).getD parent_id.toNat default := by
          have := List.get?_eq_some.mp hget
          rcases this with ⟨hlt, heq⟩
          rw [List.getD_eq_getElem _ _ (by simpa using hlt), ← heq]
          simp
        have hkeep : ∀ i,
            i < ((s.bones_ ++ [to_add]).set parent_id.toNat (parent.addChild to_add)).length →
            (((s.bones_ ++ [to_add]).set parent_id.toNat
                (parent.addChild to_add)).getD i default).offset_matrix =
              ((s.bones_ ++ [to_add]).getD i default).offset_matrix := by
          intro i hi
          rw [List.getD_eq_getElem _ _ (by simpa using hi)]
          by_cases hip : i = parent_id.toNat
          · subst hip
            rw [List.getElem_set_self (by simpa using hi)]
            rw [hpar, List.getD_eq_getElem _ _ (by simpa using hin)]
            rfl
          · rw [List.getElem_set_ne (by omega) (by simpa using hi)]
            rw [← List.getD_eq_getElem _ default (by simpa using hi)]
        have h := hoffsets _ hkeep (by simp)
        exact ⟨rfl, h.1, h.2⟩

/-- Witness for C10: adding a root bone with offset matrix 1 to the empty
skeleton puts exactly that matrix into the final-matrix sequence. -/
theorem C10_addBone_matrix_is_offset_witness :
    oneBoneSkeleton.bone_matrices_ = Skeleton.empty.bone_matrices_ ++ [(1 : Mat4)] ∧
    oneBoneSkeleton.bone_matrices_.length = oneBoneSkeleton.bones_.length := by
  have h := C10_addBone_matrix_is_offset Skeleton.empty "root" 0 (-1) 1 1
    ⟨rfl, fun i hi => absurd hi (by simp [Skeleton.empty])⟩ oneBoneSkeleton (by rfl)
  exact ⟨h.1, h.2.1⟩

theorem find?_eq_head?_filter {α : Type} (p : α → Bool) (l : List α) :
    l.find? p = (l.filter p).head? := by
  induction l with
  | nil => rfl
  | cons a l ih =>
    by_cases h : p a
    · rw [List.find?_cons_of_pos _ h, List.filter_cons_of_pos h]
      rfl
    · rw [List.find?_cons_of_neg _ (by simpa using h),
        List.filter_cons_of_neg (by simpa using h)]
      exact ih

theorem inSub_self (bones : List Bone) (i : Nat) : inSub bones i i = true := by
  unfold inSub
  rw [if_pos rfl]

theorem inSub_step (bones : List Bone) (i j : Nat) (hji : j ≠ i)
    (hg : 0 ≤ (boneAt bones j).parent_id ∧ (boneAt bones j).parent_id.toNat < j) :
    inSub bones i j = inSub bones i (boneAt bones j).parent_id.toNat := by
  conv_lhs => rw [inSub]
  rw [if_neg hji, dif_pos hg]

theorem inSub_stop (bones : List Bone) (i j : Nat) (hji : j ≠ i)
    (hg : ¬ (0 ≤ (boneAt bones j).parent_id ∧ (boneAt bones j).parent_id.toNat < j)) :
    inSub bones i j = false := by
  conv_lhs => rw [inSub]
  rw [if_neg hji, dif_neg hg]

theorem relGlobal_self (bones : List Bone) (P : Mat4) (i : Nat) :
    relGlobal bones P i i = P * (boneAt bones i).local_transform := by
  conv_lhs => rw [relGlobal]
  rw [if_pos rfl]

theorem relGlobal_step (bones : List Bone) (P : Mat4) (i j : Nat) (hji : j ≠ i)
    (hg : 0 ≤ (boneAt bones j).parent_id ∧ (boneAt bones j).parent_id.toNat < j) :
    relGlobal bones P i j =
      relGlobal bones P i (boneAt bones j).parent_id.toNat *
        (boneAt bones j).local_transform := by
  conv_lhs => rw [relGlobal]
  rw [if_neg hji, dif_pos hg]

theorem specGlobalTransform_root (bones : List Bone) (j : Nat)
    (h : (boneAt bones j).parent_id = -1) :
    specGlobalTransform bones j = (1 : Mat4) * (boneAt bones j).local_transform := by
  conv_lhs => rw [specGlobalTransform]
  rw [if_pos h]

theorem specGlobalTransform_step (bones : List Bone) (j : Nat)
    (h : (boneAt bones j).parent_id ≠ -1)
    (hlt : (boneAt bones j).parent_id.toNat < j) :
    specGlobalTransform bones j =
      specGlobalTransform bones (boneAt bones j).parent_id.toNat *
        (boneAt bones j).local_transform := by
  conv_lhs => rw [specGlobalTransform]
  rw [if_neg h, dif_pos hlt]

theorem inSub_le (bones : List Bone) (i : Nat) :
    ∀ j, inSub bones i j = true → i ≤ j := by
  intro j
  induction j using Nat.strong_induction_on with
  | _ j ih =>
    intro hsub
    by_cases hji : j = i
    · omega
    · unfold inSub at hsub
      rw [if_neg hji] at hsub
      by_cases hg : 0 ≤ (boneAt bones j).parent_id ∧ (boneAt bones j).parent_id.toNat < j
      · rw [dif_pos hg] at hsub
        have := ih _ hg.2 hsub
        omega
      · rw [dif_neg hg] at hsub
        exact Bool.noConfusion hsub

theorem traverse_bones_eq (fuel : Nat) :
    ∀ (s : Skeleton) (i : Nat) (P : Mat4),
      (Skeleton.traverseBoneHierarchy fuel s i P).bones_ = s.bones_ := by
  induction fuel with
  | zero =>
    intro s i P
    rfl
  | succ fuel ih =>
    intro s i P
    unfold Skeleton.traverseBoneHierarchy
    cases hres : s.bones_.get? i with
    | none => rfl
    | some bone =>
      have hfold : ∀ (cs : List Nat) (t : Skeleton) (G : Mat4),
          (cs.foldl (fun acc c => Skeleton.traverseBoneHierarchy fuel acc c G) t).bones_ =
            t.bones_ := by
        intro cs
        induction cs with
        | nil =>
          intro t G
          rfl
        | cons c cs ihc =>
          intro t G
          rw [List.foldl_cons, ihc, ih]
      rw [hfold]

theorem traverse_matrices_length (fuel : Nat) :
    ∀ (s : Skeleton) (i : Nat) (P : Mat4),
      (Skeleton.traverseBoneHierarchy fuel s i P).bone_matrices_.length =
        s.bone_matrices_.length := by
  induction fuel with
  | zero =>
    intro s i P
    rfl
  | succ fuel ih =>
    intro s i P
    unfold Skeleton.traverseBoneHierarchy
    cases hres : s.bones_.get? i with
    | none => rfl
    | some bone =>
      have hfold : ∀ (cs : List Nat) (t : Skeleton) (G : Mat4),
          (cs.foldl (fun acc c => Skeleton.traverseBoneHierarchy fuel acc c G) t).bone_matrices_.length =
            t.bone_matrices_.length := by
        intro cs
        induction cs with
        | nil =>
          intro t G
          rfl
        | cons c cs ihc =>
          intro t G
          rw [List.foldl_cons, ihc, ih]
      rw [hfold]
      simp

theorem relGlobal_shift (bones : List Bone) (i c : Nat) (hic : i < c)
    (hparc : (boneAt bones c).parent_id = (i : Int)) (P : Mat4) :
    ∀ j, inSub bones c j = true →
      relGlobal bones P i j =
        relGlobal bones (P * (boneAt bones i).local_transform) c j := by
  intro j
  induction j using Nat.strong_induction_on with
  | _ j ih =>
    intro hsub
    by_cases hjc : j = c
    · subst hjc
      have hg : 0 ≤ (boneAt bones j).parent_id ∧ (boneAt bones j).parent_id.toNat < j := by
        rw [hparc]
        constructor
        · exact Int.ofNat_nonneg i
        · simpa using hic
      have hp : (boneAt bones j).parent_id.toNat = i := by
        rw [hparc]
        simp
      rw [relGlobal_step bones P i j (by omega) hg, hp, relGlobal_self,
        relGlobal_self]
    · have hcj : c < j := by
        have := inSub_le bones c j hsub
        omega
      have hji : j ≠ i := by omega
      by_cases hg : 0 ≤ (boneAt bones j).parent_id ∧ (boneAt bones j).parent_id.toNat < j
      · rw [inSub_step bones c j hjc hg] at hsub
        rw [relGlobal_step bones P i j hji hg,
          relGlobal_step bones (P * (boneAt bones i).local_transform) c j hjc hg,
          ih _ hg.2 hsub]
      · rw [inSub_stop bones c j hjc hg] at hsub
        exact Bool.noConfusion hsub

theorem inSub_children (bones : List Bone)
    (hpar : ∀ k, k < bones.length → (boneAt bones k).parent_id = -1 ∨
      (0 ≤ (boneAt bones k).parent_id ∧ (boneAt bones k).parent_id.toNat < k))
    (hch : ∀ k, k < bones.length → (boneAt bones k).children =
      (List.range bones.length).filter
        (fun j => (boneAt bones j).parent_id = (k : Int)))
    (i : Nat) (hi : i < bones.length) :
    ∀ j, j < bones.length → j ≠ i →
      inSub bones i j = (boneAt bones i).children.any (fun c => inSub bones c j) := by
  intro j
  induction j using Nat.strong_induction_on with
  | _ j ih =>
    intro hj hji
    have hmem : ∀ c, c ∈ (boneAt bones i).children ↔
        (c < bones.length ∧ (boneAt bones c).parent_id = (i : Int)) := by
      intro c
      rw [hch i hi]
      simp [List.mem_filter, List.mem_range]
    by_cases hg : 0 ≤ (boneAt bones j).parent_id ∧ (boneAt bones j).parent_id.toNat < j
    · rw [inSub_step bones i j hji hg]
      by_cases hpj : (boneAt bones j).parent_id = (i : Int)
      · have hpi : (boneAt bones j).parent_id.toNat = i := by
          rw [hpj]
          simp
        rw [hpi, inSub_self]
        have hjm : j ∈ (boneAt bones i).children := (hmem j).mpr ⟨hj, hpj⟩
        symm
        rw [List.any_eq_true]
        exact ⟨j, hjm, inSub_self bones j⟩
      · have hpne : (boneAt bones j).parent_id.toNat ≠ i := by omega
        have hpt : ∀ c ∈ (boneAt bones i).children,
            inSub bones c j = inSub bones c ((boneAt bones j).parent_id.toNat) := by
          intro c hc
          have hcj : c ≠ j := by
            intro hcj
            subst hcj
            exact hpj ((hmem c).mp hc).2
          exact inSub_step bones c j (by omega) hg
        have hih := ih _ hg.2 (by omega) hpne
        rw [hih]
        rcases hb : (boneAt bones i).children.any
            (fun c => inSub bones c ((boneAt bones j).parent_id.toNat)) with _ | _
        · symm
          rw [List.any_eq_false] at hb ⊢
          intro c hc
          rw [hpt c hc]
          exact hb c hc
        · symm
          rw [List.any_eq_true] at hb ⊢
          rcases hb with ⟨c, hc, hcs⟩
          exact ⟨c, hc, by rw [hpt c hc]; exact hcs⟩
    · have hpj : (boneAt bones j).parent_id = -1 := by
        rcases hpar j hj with h | h
        · exact h
        · exact absurd h hg
      rw [inSub_stop bones i j hji hg]
      symm
      rw [List.any_eq_false]
      intro c hc
      have hcj : c ≠ j := by
        intro hcj
        subst hcj
        have := ((hmem c).mp hc).2
        rw [hpj] at this
        omega
      rw [inSub_stop bones c j (by omega) hg]
      simp

theorem traverse_matrices (bones : List Bone)
    (hpar : ∀ k, k < bones.length → (boneAt bones k).parent_id = -1 ∨
      (0 ≤ (boneAt bones k).parent_id ∧ (boneAt bones k).parent_id.toNat < k))
    (hch : ∀ k, k < bones.length → (boneAt bones k).children =
      (List.range bones.length).filter
        (fun j => (boneAt bones j).parent_id = (k : Int))) :
    ∀ (fuel i : Nat) (P : Mat4) (s : Skeleton), s.bones_ = bones →
      s.bone_matrices_.length = bones.length →
      i < bones.length → bones.length - i ≤ fuel →
      ∀ j, j < bones.length →
        (Skeleton.traverseBoneHierarchy fuel s i P).bone_matrices_.getD j 1 =
          if inSub bones i j = true then
            relGlobal bones P i j * (boneAt bones j).offset_matrix
          else s.bone_matrices_.getD j 1 := by
  intro fuel
  induction fuel with
  | zero =>
    intro i P s hbs hlen hi hfuel
    omega
  | succ fuel ih =>
    intro i P s hbs hlen hi hfuel j hj
    have hsget : s.bones_.get? i = some (boneAt bones i) := by
      rw [hbs, List.get?_eq_get hi]
      unfold boneAt
      rw [List.getD_eq_getElem _ _ hi]
      rfl
    have hchild : ∀ c ∈ (boneAt bones i).children,
        c < bones.length ∧ (boneAt bones c).parent_id = (i : Int) ∧ i < c := by
      intro c hc
      rw [hch i hi] at hc
      rw [List.mem_filter, List.mem_range] at hc
      refine ⟨hc.1, by simpa using hc.2, ?_⟩
      rcases hpar c hc.1 with h | h
      · rw [(by simpa using hc.2 : (boneAt bones c).parent_id = (i : Int))] at h
        omega
      · have hpc : (boneAt bones c).parent_id = (i : Int) := by simpa using hc.2
        rw [hpc] at h
        simpa using h.2
    have hfold : ∀ (cs : List Nat),
        (∀ c ∈ cs, c < bones.length ∧ (boneAt bones c).parent_id = (i : Int) ∧ i < c) →
        ∀ (t : Skeleton), t.bones_ = bones → t.bone_matrices_.length = bones.length →
        ∀ j, j < bones.length →
          ((cs.foldl (fun acc c => Skeleton.traverseBoneHierarchy fuel acc c
              (P * (boneAt bones i).local_transform)) t).bone_matrices_.getD j 1) =
            if cs.any (fun c => inSub bones c j) = true then
              relGlobal bones P i j * (boneAt bones j).offset_matrix
            else t.bone_matrices_.getD j 1 := by
      intro cs
      induction cs with
      | nil =>
        intro _ t _ _ j hj
        simp
      | cons c cs ihc =>
        intro hcs t hbt hlt j hj
        rw [List.foldl_cons]
        have hc := hcs c (List.mem_cons_self c cs)
        have ht' := ih c (P * (boneAt bones i).local_transform) t hbt hlt hc.1 (by omega)
        have hbt' : (Skeleton.traverseBoneHierarchy fuel t c
            (P * (boneAt bones i).local_transform)).bones_ = bones := by
          rw [traverse_bones_eq]
          exact hbt
        have hlt' : (Skeleton.traverseBoneHierarchy fuel t c
            (P * (boneAt bones i).local_transform)).bone_matrices_.length = bones.length := by
          rw [traverse_matrices_length]
          exact hlt
        rw [ihc (fun c' hc' => hcs c' (List.mem_cons_of_mem c hc')) _ hbt' hlt' j hj]
        rw [List.any_cons]
        by_cases hany : cs.any (fun x => inSub bones x j) = true
        · rw [if_pos hany, if_pos (by rw [hany, Bool.or_true])]
        · rw [if_neg hany]
          rw [ht' j hj]
          by_cases hic : inSub bones c j = true
          · rw [if_pos hic, if_pos (by rw [hic, Bool.true_or])]
            rw [relGlobal_shift bones i c hc.2.2 hc.2.1 P j hic]
          · rw [if_neg hic]
            rw [if_neg (by
              rcases hb : inSub bones c j with _ | _
              · rcases hb2 : cs.any (fun x => inSub bones x j) with _ | _
                · simp
                · exact absurd hb2 hany
              · exact absurd hb hic)]
    have hmatset : ∀ j, j < bones.length →
        ((s.bone_matrices_.set i
            ((P * (boneAt bones i).local_transform) * (boneAt bones i).offset_matrix)).getD j 1) =
          if j = i then (P * (boneAt bones i).local_transform) * (boneAt bones i).offset_matrix
          else s.bone_matrices_.getD j 1 := by
      intro j hj
      by_cases hji : j = i
      · subst hji
        rw [if_pos rfl, List.getD_eq_getElem _ _ (by simpa [hlen] using hj),
          List.getElem_set_self (by simpa [hlen] using hj)]
      · rw [if_neg hji]
        rw [List.getD_eq_getElem _ _ (by simpa [hlen] using hj),
          List.getElem_set_ne (by omega) (by simpa [hlen] using hj),
          ← List.getD_eq_getElem _ 1 (by simpa [hlen] using hj)]
    unfold Skeleton.traverseBoneHierarchy
    rw [hsget]
    dsimp only
    have hres := hfold (boneAt bones i).children hchild { s with bone_matrices_ := s.bone_matrices_.set i (P * (boneAt bones i).local_transform * (boneAt bones i).offset_matrix) } (by simpa using hbs) (by simpa using hlen) j hj
    rw [hres]
    by_cases hji : j = i
    · subst hji
      have hanyf : (boneAt bones j).children.any (fun c => inSub bones c j) = false := by
        rw [List.any_eq_false]
        intro c hc
        intro habs
        have h1 := inSub_le bones c j habs
        have h2 := (hchild c hc).2.2
        omega
      rw [hanyf]
      rw [if_neg (by simp)]
      rw [if_pos (inSub_self bones j)]
      rw [hmatset j hj, if_pos rfl, relGlobal_self]
    · rw [← inSub_children bones hpar hch i hi j hj hji]
      by_cases hsub : inSub bones i j = true
      · rw [if_pos hsub, if_pos hsub]
      · rw [if_neg hsub, if_neg hsub]
        rw [hmatset j hj, if_neg hji]

theorem root_reaches (bones : List Bone)
    (hpar : ∀ k, k < bones.length → (boneAt bones k).parent_id = -1 ∨
      (0 ≤ (boneAt bones k).parent_id ∧ (boneAt bones k).parent_id.toNat < k))
    (r : Nat)
    (huniq : ∀ k, k < bones.length → (boneAt bones k).parent_id = -1 → k = r) :
    ∀ j, j < bones.length → inSub bones r j = true := by
  intro j
  induction j using Nat.strong_induction_on with
  | _ j ih =>
    intro hj
    by_cases hjr : j = r
    · subst hjr
      exact inSub_self bones j
    · rcases hpar j hj with h | h
      · exact absurd (huniq j hj h) hjr
      · rw [inSub_step bones r j hjr h]
        exact ih _ h.2 (by omega)

theorem relGlobal_one_eq_spec (bones : List Bone)
    (hpar : ∀ k, k < bones.length → (boneAt bones k).parent_id = -1 ∨
      (0 ≤ (boneAt bones k).parent_id ∧ (boneAt bones k).parent_id.toNat < k))
    (r : Nat) (hr : (boneAt bones r).parent_id = -1)
    (huniq : ∀ k, k < bones.length → (boneAt bones k).parent_id = -1 → k = r) :
    ∀ j, j < bones.length → relGlobal bones 1 r j = specGlobalTransform bones j := by
  intro j
  induction j using Nat.strong_induction_on with
  | _ j ih =>
    intro hj
    by_cases hjr : j = r
    · subst hjr
      rw [relGlobal_self, specGlobalTransform_root bones j hr]
    · rcases hpar j hj with h | h
      · exact absurd (huniq j hj h) hjr
      · rw [relGlobal_step bones 1 r j hjr h,
          specGlobalTransform_step bones j (by omega) h.2,
          ih _ h.2 (by omega)]

/-- C1: on a well-formed skeleton, updateBoneMatrices sets, for every bone b,
final_matrix[b.id] = global_transform(b) * b.offset_matrix, where the global
transform of the root is identity * root.local_transform and that of every
other bone is global_transform(parent) * bone.local_transform — the result of
the single root-to-leaves traversal started at the root with an identity
parent transform. -/
theorem C1_updateBoneMatrices_skinning (s : Skeleton) (hwf : WFSkeleton s) :
    ∀ b ∈ s.bones_, (s.updateBoneMatrices).bone_matrices_.getD b.id 1 =
      specGlobalTransform s.bones_ b.id * b.offset_matrix := by
  obtain ⟨hlen, hnum, hids, hpar, hch, hroot⟩ := hwf
  obtain ⟨r, hfilter⟩ := List.length_eq_one.mp hroot
  have hrmem : r ∈ (List.range s.bones_.length).filter
      (fun i => (boneAt s.bones_ i).parent_id = -1) := by
    rw [hfilter]
    exact List.mem_singleton_self r
  rw [List.mem_filter, List.mem_range] at hrmem
  have hrn : r < s.bones_.length := hrmem.1
  have hrp : (boneAt s.bones_ r).parent_id = -1 := by simpa using hrmem.2
  have huniq : ∀ k, k < s.bones_.length → (boneAt s.bones_ k).parent_id = -1 → k = r := by
    intro k hk hkp
    have hkm : k ∈ (List.range s.bones_.length).filter
        (fun i => (boneAt s.bones_ i).parent_id = -1) := by
      rw [List.mem_filter, List.mem_range]
      exact ⟨hk, by simpa using hkp⟩
    rw [hfilter] at hkm
    simpa using hkm
  intro b hb
  obtain ⟨⟨k, hk⟩, hbk⟩ := List.mem_iff_get.mp hb
  have hbAt : boneAt s.bones_ k = b := by
    unfold boneAt
    rw [List.getD_eq_getElem _ _ hk, ← hbk]
    rfl
  have hbid : b.id = k := by
    rw [← hbAt]
    exact hids k hk
  unfold Skeleton.updateBoneMatrices
  rw [if_neg (by omega)]
  dsimp only
  have hfind : (List.range s.bones_.length).find?
      (fun i => (boneAt s.bones_ i).parent_id = -1) = some r := by
    rw [find?_eq_head?_filter, hfilter]
    rfl
  rw [hfind]
  dsimp only
  have htrav := traverse_matrices s.bones_ hpar hch s.bones_.length r 1 s rfl hlen hrn
    (by omega) b.id (by omega)
  rw [htrav]
  rw [if_pos (root_reaches s.bones_ hpar r huniq b.id (by omega))]
  rw [relGlobal_one_eq_spec s.bones_ hpar r hrp huniq b.id (by omega)]
  rw [hbid, hbAt]

/-- Witness for C1 on the concrete two-bone chain. -/
theorem C1_updateBoneMatrices_skinning_witness :
    WFSkeleton twoBoneSkeleton ∧
    (twoBoneSkeleton.updateBoneMatrices).bone_matrices_.getD
        (⟨"child", 1, 0, 1, 1, []⟩ : Bone).id 1 =
      specGlobalTransform twoBoneSkeleton.bones_ (⟨"child", 1, 0, 1, 1, []⟩ : Bone).id *
        (⟨"child", 1, 0, 1, 1, []⟩ : Bone).offset_matrix := by
  refine ⟨by decide, ?_⟩
  exact C1_updateBoneMatrices_skinning twoBoneSkeleton (by decide) _
    (List.mem_cons_of_mem _ (List.mem_cons_self _ _))

/-- C2: constructSkeleton on a scene whose only bone is the root node derives
the root's local transform as the inverse of its offset matrix M, and — with
M invertible, as any genuine bind pose is — updateBoneMatrices on the
resulting single-bone skeleton yields the identity as final_matrix[0]: the
bind pose round-trips to identity skinning. -/
theorem C2_single_bone_identity (nm : String) (T M : Mat4) (hM : IsUnit M.det) :
    ∃ sk, constructSkeleton ⟨[(nm, M)]⟩ ⟨nm, T, []⟩ (some Skeleton.empty) (-1) 1 = some sk ∧
      (boneAt sk.bones_ 0).local_transform = glmInverse M ∧
      (sk.updateBoneMatrices).bone_matrices_.getD 0 1 = 1 := by
  have hfb : AiScene.findBone ⟨[(nm, M)]⟩ nm = some M := by
    unfold AiScene.findBone mapFind
    rw [List.find?_cons_of_pos _ (by simp)]
    rfl
  refine ⟨{ Skeleton.empty with
      bones_ := [(⟨nm, 0, -1, M, glmInverse M, []⟩ : Bone)],
      bone_matrices_ := [M], bone_map_ := [(nm, 0)], num_bones_ := 1 }, ?_, by simp [boneAt], ?_⟩
  · unfold constructSkeleton
    rw [hfb]
    dsimp only
    rw [if_pos rfl]
    simp only [List.attach_nil, List.foldl_nil]
    unfold Skeleton.addBone
    rw [if_pos rfl]
    rfl
  · unfold Skeleton.updateBoneMatrices
    rw [if_neg (by simp)]
    dsimp only
    have hfind : (List.range (1 : Nat)).find?
        (fun i => (boneAt [(⟨nm, 0, -1, M, glmInverse M, []⟩ : Bone)] i).parent_id = -1) =
          some 0 := by
      rw [List.range_succ, List.range_zero, List.nil_append,
        List.find?_cons_of_pos _ (by simp [boneAt])]
    simp only [List.length_cons, List.length_nil] at hfind ⊢
    rw [hfind]
    dsimp only
    unfold Skeleton.traverseBoneHierarchy
    simp only [List.get?_cons_zero]
    simp only [List.foldl_nil]
    rw [List.getD_eq_getElem _ _ (by simp), List.getElem_set_self (by simp)]
    rw [one_mul, glmInverse_mul M hM]

/-- Witness for C2 at the identity offset matrix. -/
theorem C2_single_bone_identity_witness :
    IsUnit ((1 : Mat4)).det ∧
    ((constructSkeleton ⟨[("root", 1)]⟩ ⟨"root", 1, []⟩ (some Skeleton.empty) (-1) 1).map
      (fun sk => (sk.updateBoneMatrices).bone_matrices_.getD 0 1)) = some 1 := by
  have hdet : IsUnit ((1 : Mat4)).det := by simp
  obtain ⟨sk, heq, _, hfin⟩ := C2_single_bone_identity "root" 1 1 hdet
  refine ⟨hdet, ?_⟩
  rw [heq, Option.map_some']
  exact congrArg some hfin

theorem foldl_gather_isSome (skeleton : Skeleton) (important_bones : List Nat) :
    ∀ (l : List Nat) (ob : Option (Nat → List Vec3)),
      (∀ i ∈ l, (mapAtNat skeleton.vertex_to_boneID_map_ i).isSome = true) →
      ob.isSome = true →
      ((l.foldl (fun acc i => match acc with
        | none => none
        | some buckets => gatherStep skeleton important_bones buckets i) ob).isSome = true) := by
  intro l
  induction l with
  | nil =>
    intro ob _ hob
    simpa using hob
  | cons a l ihl =>
    intro ob hl hob
    rw [List.foldl_cons]
    obtain ⟨b, rfl⟩ := Option.isSome_iff_exists.mp hob
    refine ihl _ (fun i hi => hl i (List.mem_cons_of_mem a hi)) ?_
    have ha := hl a (List.mem_cons_self a l)
    unfold gatherStep
    obtain ⟨ids, hids⟩ := Option.isSome_iff_exists.mp ha
    rw [hids]
    rfl

theorem buildHullObject_bone_ids (qh : List Vec3 → List Vec3 × List Nat)
    (normalize : Vec3 → Vec3) (points : List Vec3) (bone : Nat) (color_idx : Nat) :
    ((buildHullObject qh normalize points bone color_idx).shape.bone_ids.all
      (fun ids => ids.1 = bone)) = true := by
  unfold buildHullObject loadSkinnedShape
  dsimp only
  generalize (indexTriples (qh points).2).map
    (fun t => ((qh points).1.getD t.1 (0, 0, 0), (qh points).1.getD t.2.1 (0, 0, 0),
      (qh points).1.getD t.2.2 (0, 0, 0))) = tris
  induction tris with
  | nil => rfl
  | cons t tris ih =>
    rw [List.foldr_cons]
    simp only [List.all_cons, ih]
    simp

/-- C3: under important-bones selection the anchor set is exactly the bones
with more than one child; a skeleton whose gathering map covers its vertices
gets exactly one convex part per such bone — in particular exactly one part
when exactly one branching bone exists and zero parts on an all-leaf-chain
skeleton with no branching bone. -/
theorem C3_important_bones_selection (qh : List Vec3 → List Vec3 × List Nat)
    (normalize : Vec3 → Vec3) (s : Skeleton)
    (hcov : ∀ i, i < s.vertices_.length →
      (mapAtNat s.vertex_to_boneID_map_ i).isSome = true) :
    ∃ m, decomposeSkeleton qh normalize s = some m ∧
      m.objects.length = (s.bones_.filter (fun b => 1 < b.children.length)).length ∧
      ((s.bones_.filter (fun b => 1 < b.children.length)).length = 1 →
        m.objects.length = 1) ∧
      ((∀ b ∈ s.bones_, b.children.length ≤ 1) → m.objects.length = 0) := by
  have hsome : (bonesToMeshes s (importantBones s)).isSome = true := by
    unfold bonesToMeshes
    exact foldl_gather_isSome s (importantBones s) (List.range s.vertices_.length)
      (some (fun _ => [])) (fun i hi => hcov i (List.mem_range.mp hi)) rfl
  obtain ⟨btm, hbtm⟩ := Option.isSome_iff_exists.mp hsome
  have heq : decomposeSkeleton qh normalize s = some (decomposedMesh qh normalize s btm) := by
    unfold decomposeSkeleton
    dsimp only
    rw [hbtm]
    rfl
  have hlen : (decomposedMesh qh normalize s btm).objects.length =
      (s.bones_.filter (fun b => 1 < b.children.length)).length := by
    simp [decomposedMesh, importantBones]
  refine ⟨decomposedMesh qh normalize s btm, heq, hlen, ?_, ?_⟩
  · intro h1
    rw [hlen]
    exact h1
  · intro hall
    rw [hlen]
    rw [List.length_eq_zero, List.filter_eq_nil]
    intro b hb
    simpa using hall b hb

/-- Witness for C3: the one-branching-bone skeleton yields one part, the
two-bone chain yields none. -/
theorem C3_important_bones_selection_witness :
    ((decomposeSkeleton (fun _ => ([], [])) (fun v => v) branchSkeleton).map
      (fun m => m.objects.length)) = some 1 ∧
    ((decomposeSkeleton (fun _ => ([], [])) (fun v => v) twoBoneSkeleton).map
      (fun m => m.objects.length)) = some 0 := by
  constructor
  · obtain ⟨m, hm, _, h1, _⟩ := C3_important_bones_selection (fun _ => ([], []))
      (fun v => v) branchSkeleton (by decide)
    rw [hm, Option.map_some']
    exact congrArg some (h1 (by decide))
  · obtain ⟨m, hm, _, _, h0⟩ := C3_important_bones_selection (fun _ => ([], []))
      (fun v => v) twoBoneSkeleton (by decide)
    rw [hm, Option.map_some']
    exact congrArg some (h0 (by decide))

/-- C4 counterexample: on the branching skeleton with no geometry at all, the
sole anchor bone gathers an empty point set, yet the decomposition emits one
part (not zero): anchors with empty gathered sets are not skipped — the loop
body, hull call included, runs for every anchor. -/
theorem C4_counterexample :
    importantBones branchSkeleton = [0] ∧
    ((bonesToMeshes branchSkeleton (importantBones branchSkeleton)).map
      (fun f => f 0)) = some [] ∧
    ((decomposeSkeleton (fun _ => ([], [])) (fun v => v) branchSkeleton).map
      (fun m => m.objects.length)) = some 1 ∧
    ¬ ((decomposeSkeleton (fun _ => ([], [])) (fun v => v) branchSkeleton).map
      (fun m => m.objects.length)) = some 0 := by
  refine ⟨by decide, by decide, by decide, ?_⟩
  intro h
  have h1 : ((decomposeSkeleton (fun _ => ([], [])) (fun v => v) branchSkeleton).map
      (fun m => m.objects.length)) = some 1 := by decide
  rw [h1] at h
  exact absurd (Option.some.inj h) (by decide)

/-- C4 amended: the decomposition emits exactly one part per anchor bone,
whether or not the anchor's gathered point set is empty (no skip happens; the
hull primitive is invoked even on an empty set), each part rigidly bound to
its anchor; no error is reported as long as the vertex map covers every
vertex index. -/
theorem C4_parts_for_all_anchors (qh : List Vec3 → List Vec3 × List Nat)
    (normalize : Vec3 → Vec3) (s : Skeleton)
    (hcov : ∀ i, i < s.vertices_.length →
      (mapAtNat s.vertex_to_boneID_map_ i).isSome = true) :
    ∃ m, decomposeSkeleton qh normalize s = some m ∧
      m.objects.length = (importantBones s).length ∧
      ∀ k, k < (importantBones s).length →
        ((m.objects.getD k default).shape.bone_ids.all
          (fun ids => ids.1 = (importantBones s).getD k 0)) = true := by
  have hsome : (bonesToMeshes s (importantBones s)).isSome = true := by
    unfold bonesToMeshes
    exact foldl_gather_isSome s (importantBones s) (List.range s.vertices_.length)
      (some (fun _ => [])) (fun i hi => hcov i (List.mem_range.mp hi)) rfl
  obtain ⟨btm, hbtm⟩ := Option.isSome_iff_exists.mp hsome
  have heq : decomposeSkeleton qh normalize s = some (decomposedMesh qh normalize s btm) := by
    unfold decomposeSkeleton
    dsimp only
    rw [hbtm]
    rfl
  refine ⟨decomposedMesh qh normalize s btm, heq, by simp [decomposedMesh], ?_⟩
  intro k hk
  have hkm : k < (decomposedMesh qh normalize s btm).objects.length := by
    simp [decomposedMesh]
    exact hk
  rw [List.getD_eq_getElem _ _ hkm]
  unfold decomposedMesh
  rw [List.getElem_map]
  rw [List.getElem_enum]
  rw [List.getD_eq_getElem _ _ hk]
  exact buildHullObject_bone_ids qh normalize _ _ _

/-- Witness for the amended C4 on the branching skeleton. -/
theorem C4_parts_for_all_anchors_witness :
    ((decomposeSkeleton (fun _ => ([], [])) (fun v => v) branchSkeleton).map
      (fun m => m.objects.length)) = some ((importantBones branchSkeleton).length) := by
  obtain ⟨m, hm, hlen, _⟩ := C4_parts_for_all_anchors (fun _ => ([], []))
    (fun v => v) branchSkeleton (by decide)
  rw [hm, Option.map_some']
  exact congrArg some hlen

theorem assignWeightSlot_nonneg (ids : BoneIDs) (ws : BoneWeights) (bone_id : Nat)
    (w : ℚ) (hw : 0 ≤ w) (h1 : 0 ≤ ws.1) (h2 : 0 ≤ ws.2.1) (h3 : 0 ≤ ws.2.2.1)
    (h4 : 0 ≤ ws.2.2.2) :
    0 ≤ (assignWeightSlot ids ws bone_id w).2.1 ∧
    0 ≤ (assignWeightSlot ids ws bone_id w).2.2.1 ∧
    0 ≤ (assignWeightSlot ids ws bone_id w).2.2.2.1 ∧
    0 ≤ (assignWeightSlot ids ws bone_id w).2.2.2.2 := by
  unfold assignWeightSlot
  split_ifs
  · exact ⟨hw, h2, h3, h4⟩
  · exact ⟨h1, hw, h3, h4⟩
  · exact ⟨h1, h2, hw, h4⟩
  · exact ⟨h1, h2, h3, hw⟩
  · exact ⟨h1, h2, h3, h4⟩

theorem assignRecorded_nonneg (entries : List (Nat × ℚ))
    (hpos : ∀ e ∈ entries, 0 ≤ e.2) :
    0 ≤ (assignRecorded entries).2.1 ∧ 0 ≤ (assignRecorded entries).2.2.1 ∧
    0 ≤ (assignRecorded entries).2.2.2.1 ∧ 0 ≤ (assignRecorded entries).2.2.2.2 := by
  unfold assignRecorded
  have hgen : ∀ (l : List (Nat × ℚ)), (∀ e ∈ l, 0 ≤ e.2) →
      ∀ p : BoneIDs × BoneWeights,
      0 ≤ p.2.1 → 0 ≤ p.2.2.1 → 0 ≤ p.2.2.2.1 → 0 ≤ p.2.2.2.2 →
      (0 ≤ (l.foldl (fun p e => assignWeightSlot p.1 p.2 e.1 e.2) p).2.1 ∧
       0 ≤ (l.foldl (fun p e => assignWeightSlot p.1 p.2 e.1 e.2) p).2.2.1 ∧
       0 ≤ (l.foldl (fun p e => assignWeightSlot p.1 p.2 e.1 e.2) p).2.2.2.1 ∧
       0 ≤ (l.foldl (fun p e => assignWeightSlot p.1 p.2 e.1 e.2) p).2.2.2.2) := by
    intro l
    induction l with
    | nil =>
      intro _ p a b c d
      exact ⟨a, b, c, d⟩
    | cons e l ihl =>
      intro hl p a b c d
      rw [List.foldl_cons]
      obtain ⟨a', b', c', d'⟩ := assignWeightSlot_nonneg p.1 p.2 e.1 e.2
        (hl e (List.mem_cons_self e l)) a b c d
      exact ihl (fun x hx => hl x (List.mem_cons_of_mem e hx)) _ a' b' c' d'
  exact hgen entries hpos ((0, 0, 0, 0), (0, 0, 0, 0)) le_rfl le_rfl le_rfl le_rfl

theorem normalizeWeights_sum_one (ws : BoneWeights)
    (h1 : 0 ≤ ws.1) (h2 : 0 ≤ ws.2.1) (h3 : 0 ≤ ws.2.2.1) (h4 : 0 ≤ ws.2.2.2) :
    sumW (normalizeWeights ws) = 1 := by
  rcases ws with ⟨w1, w2, w3, w4⟩
  dsimp only at h1 h2 h3 h4
  simp only [normalizeWeights, sumW, Prod.mk.injEq]
  split_ifs with hz hs
  · rw [hz.2.1, hz.2.2.1, hz.2.2.2]
    norm_num
  · have hne : w1 + w2 + w3 + w4 ≠ 0 := by
      intro h
      exact hz ⟨by linarith, by linarith, by linarith, by linarith⟩
    field_simp
  · rw [not_ne_iff] at hs
    exact hs

theorem normalizeWeights_scales (ws : BoneWeights) (h0 : ws ≠ ((0 : ℚ), 0, 0, 0)) :
    normalizeWeights ws = scaleW (sumW ws)⁻¹ ws := by
  rcases ws with ⟨w1, w2, w3, w4⟩
  simp only [normalizeWeights, scaleW, sumW]
  rw [if_neg h0]
  split_ifs with hs
  · simp only [Prod.mk.injEq, div_eq_inv_mul]
  · rw [not_ne_iff] at hs
    rw [hs]
    norm_num

/-- C7: with nonnegative recorded weights, the exported 4-slot weights of a
vertex sum to 1 after normalization; a vertex with recorded weights keeps
their relative proportions (the normalized vector is the raw vector rescaled
by 1/sum); and a vertex with no recorded weights keeps bone-id slots
(0,0,0,0) and gets full weight 1.0 in slot 0 — referencing bone id 0. -/
theorem C7_weight_normalization (entries : List (Nat × ℚ))
    (hpos : ∀ e ∈ entries, 0 ≤ e.2) :
    sumW (normalizeWeights (assignRecorded entries).2) = 1 ∧
    ((assignRecorded entries).2 ≠ ((0 : ℚ), 0, 0, 0) →
      normalizeWeights (assignRecorded entries).2 =
        scaleW (sumW (assignRecorded entries).2)⁻¹ (assignRecorded entries).2) ∧
    (entries = [] → (assignRecorded entries).1 = (0, 0, 0, 0) ∧
      normalizeWeights (assignRecorded entries).2 = (1, 0, 0, 0)) := by
  obtain ⟨h1, h2, h3, h4⟩ := assignRecorded_nonneg entries hpos
  refine ⟨normalizeWeights_sum_one _ h1 h2 h3 h4,
    fun h0 => normalizeWeights_scales _ h0, fun he => ?_⟩
  subst he
  exact ⟨rfl, by decide⟩

/-- Witness for C7 on the spec's example: raw weights 3/10 and 3/10 on two
bones normalize to two equal weights 1/2 summing to 1. -/
theorem C7_weight_normalization_witness :
    sumW (normalizeWeights (assignRecorded [(1, 3/10), (2, 3/10)]).2) = 1 ∧
    normalizeWeights (assignRecorded [(1, 3/10), (2, 3/10)]).2 = (1/2, 1/2, 0, 0) ∧
    (assignRecorded [(1, 3/10), (2, 3/10)]).1 = (1, 2, 0, 0) := by
  refine ⟨(C7_weight_normalization [(1, 3/10), (2, 3/10)] (by norm_num)).1,
    by norm_num [assignRecorded, assignWeightSlot, normalizeWeights, sumW],
    by norm_num [assignRecorded, assignWeightSlot]⟩

end SkeletalMesh
